import Mathlib

/-!
Verification of the Model Engine of the `api` repository.

The definitions below are a shallow embedding of the JavaScript source in
`src/dadi/lib/model/index.js` and `src/dadi/lib/fields/reference.js`.
Documents are modelled as association lists from field names to values,
matching JavaScript objects (unique keys, insertion order preserved,
assignment to an existing key keeps its position).  Asynchronous callback
chains are linearised: every storage operation the code issues is recorded,
in order, in an explicit trace, and the value handed to the caller's `done`
callback is the function's result (`none` modelling a callback that is never
invoked).  Modules of the repository that are not part of the provided
source tree (validator, history, composer, search, query utils) are either
taken as parameters of the embedding or modelled from the specification;
each such definition says so in its doc comment.
-/

/-- Runtime values stored in document fields.  The JavaScript code the
claims are about stores and compares flat values (strings, numbers,
booleans, arrays of id strings) plus `null`, which is modelled explicitly
because the formatting code strips `null`-valued fields. -/
inductive DVal where
  | vNull
  | vBool (b : Bool)
  | vInt (n : Int)
  | vStr (s : String)
  | vStrList (elems : List String)
deriving Repr, DecidableEq

/-- A JavaScript object holding document data: field name to value, in
insertion order. -/
abbrev Doc := List (String × DVal)

/-- Reading `document[field]`: the value of the first entry with the given
key (JavaScript objects have unique keys). -/
def jsGet (d : Doc) (k : String) : Option DVal :=
  (d.find? (fun kv => kv.1 == k)).map (fun kv => kv.2)

/-- JavaScript property assignment `object[key] = value`: an existing key
keeps its position and gets the new value, a new key is appended. -/
def objSet (d : Doc) (k : String) (v : DVal) : Doc :=
  if (d.find? (fun kv => kv.1 == k)).isSome then
    d.map (fun kv => if kv.1 == k then (k, v) else kv)
  else
    d ++ [(k, v)]

/-- The key list of a document, `Object.keys(document)`. -/
def docKeys (d : Doc) : List String := d.map Prod.fst

/-- Lexicographic comparison of two field names by character code, the
order JavaScript's default `sort()` applies to object keys. -/
def charListLe : List Char → List Char → Bool
  | [], _ => true
  | _ :: _, [] => false
  | c1 :: t1, c2 :: t2 =>
    if c1.toNat < c2.toNat then true
    else if c2.toNat < c1.toNat then false
    else charListLe t1 t2

/-- Field-name comparison on strings, auxiliary to `sortKeys`. -/
def jsKeyLe (a b : String) : Bool := charListLe a.data b.data

/-- Insertion of a key into a sorted key list, auxiliary to `sortKeys`. -/
def insertKey (k : String) : List String → List String
  | [] => [k]
  | k1 :: ks => if jsKeyLe k k1 then k :: k1 :: ks else k1 :: insertKey k ks

/-- Model of `Object.keys(document).sort()`: sorting the key list in
lexicographic string order (insertion sort; JavaScript's default sort
compares strings the same way on these keys). -/
def sortKeys : List String → List String
  | [] => []
  | k :: ks => insertKey k (sortKeys ks)

/-- Model of the JavaScript test `key.indexOf(p) === 0`: `p` is a prefix
of `key`. -/
def jsStartsWith (p k : String) : Bool :=
  p.toList.isPrefixOf k.toList

/-- Renaming of a single field name in `Model.prototype.formatResultSet`
(src/dadi/lib/model/index.js:819-821): when the field starts with the
source prefix the first character is replaced by the target prefix
(`prefixes.to + field.slice(1)`), otherwise the field is unchanged. -/
def renameKey (pFrom pTo : String) (k : String) : String :=
  if jsStartsWith pFrom k then pTo ++ k.drop 1 else k

/-- The field loop of `Model.prototype.formatResultSet`
(src/dadi/lib/model/index.js:818-827): walk the sorted key list, rename
each field and copy its value into the new document, skipping fields whose
value is `null`. -/
def formatFields (pFrom pTo : String) (d : Doc) : List String → Doc → Doc
  | [], acc => acc
  | k :: ks, acc =>
    match jsGet d k with
    | some v =>
      if v = DVal.vNull then
        formatFields pFrom pTo d ks acc
      else
        formatFields pFrom pTo d ks (objSet acc (renameKey pFrom pTo k) v)
    | none => formatFields pFrom pTo d ks acc

/-- One document's pass through `Model.prototype.formatResultSet`. -/
def formatDocument (pFrom pTo : String) (d : Doc) : Doc :=
  formatFields pFrom pTo d (sortKeys (docKeys d)) []

/-- `Model.prototype.formatResultSet` (src/dadi/lib/model/index.js:801-833)
for a single document.  `iPrefix` is the configured external prefix
`config.get('internalFieldsPrefix')`; for input formatting the rename goes
from the external prefix to `_`, for output formatting from `_` to the
external prefix. -/
def formatResultSet (iPrefix : String) (formatForInput : Bool) (d : Doc) : Doc :=
  let pFrom := if formatForInput then iPrefix else "_"
  let pTo := if formatForInput then "_" else iPrefix
  formatDocument pFrom pTo d

/-- `Model.prototype.formatResultSetForInput`
(src/dadi/lib/model/index.js:842-844). -/
def formatResultSetForInput (iPrefix : String) (d : Doc) : Doc :=
  formatResultSet iPrefix true d

/-- `Model.prototype.formatResultSetForOutput`
(src/dadi/lib/model/index.js:853-855). -/
def formatResultSetForOutput (iPrefix : String) (d : Doc) : Doc :=
  formatResultSet iPrefix false d

/-- Removal of `null`-valued fields, the comparison object named by the
spec's round-trip property ("modulo null-field stripping"). -/
def stripNulls (d : Doc) : Doc :=
  d.filter (fun kv => kv.2 ≠ DVal.vNull)

/-- The value the formatting pass keeps for a key under the identity
rename: the key's first binding unless that value is `null`. -/
def canonicalVal (d : Doc) (k : String) : Option DVal :=
  match jsGet d k with
  | some v => if v = DVal.vNull then none else some v
  | none => none

/-- The entry the formatting pass emits for a key under the identity
rename. -/
def canonicalField (d : Doc) (k : String) : Option (String × DVal) :=
  (canonicalVal d k).map (fun v => (k, v))

/-! Helper lemmas about `jsGet`, `objSet`, `sortKeys` and the formatting
pass. -/

theorem jsGet_eq_none_of_not_mem (d : Doc) (k : String) (h : k ∉ docKeys d) :
    jsGet d k = none := by
  induction d with
  | nil => rfl
  | cons kv tl ih =>
    simp only [docKeys, List.map_cons, List.mem_cons, not_or] at h
    simp only [jsGet, List.find?]
    have hne : (kv.1 == k) = false := by
      simp only [beq_eq_false_iff_ne, ne_eq]
      exact fun hkk => h.1 hkk.symm
    rw [hne]
    exact ih (by simpa [docKeys] using h.2)

theorem objSet_of_not_mem (acc : Doc) (k : String) (v : DVal)
    (h : k ∉ docKeys acc) : objSet acc k v = acc ++ [(k, v)] := by
  have hfind : acc.find? (fun kv => kv.1 == k) = none := by
    apply List.find?_eq_none.mpr
    intro kv hkv hbeq
    have hkk : kv.1 = k := by simpa using hbeq
    exact h (hkk ▸ List.mem_map_of_mem Prod.fst hkv)
  simp [objSet, hfind]

theorem insertKey_perm (k : String) (ks : List String) :
    (insertKey k ks).Perm (k :: ks) := by
  induction ks with
  | nil => simp [insertKey]
  | cons k1 tl ih =>
    cases h : jsKeyLe k k1 with
    | true => simp [insertKey, h]
    | false =>
      simp only [insertKey, h, Bool.false_eq_true, if_false]
      exact (ih.cons k1).trans (List.Perm.swap k k1 tl)

theorem sortKeys_perm (ks : List String) : (sortKeys ks).Perm ks := by
  induction ks with
  | nil => simp [sortKeys]
  | cons k tl ih =>
    simp only [sortKeys]
    exact (insertKey_perm k (sortKeys tl)).trans (ih.cons k)

theorem startsWith_underscore_data (k : String)
    (h : jsStartsWith "_" k = true) : ∃ t, k.data = '_' :: t := by
  unfold jsStartsWith at h
  cases hk : k.toList with
  | nil =>
    rw [hk] at h
    simp [List.isPrefixOf] at h
  | cons c t =>
    rw [hk] at h
    have hc : ('_' == c) = true := by
      simpa [List.isPrefixOf] using h
    have hc2 : '_' = c := by simpa using hc
    exact ⟨t, by simpa [String.toList, ← hc2] using hk⟩

/-- The identity-prefix rename: renaming from `_` to `_` changes no key. -/
theorem renameKey_underscore (k : String) : renameKey "_" "_" k = k := by
  unfold renameKey
  by_cases h : jsStartsWith "_" k = true
  · rw [if_pos h]
    obtain ⟨t, ht⟩ := startsWith_underscore_data k h
    apply String.ext
    rw [String.data_append, String.data_drop, ht]
    rfl
  · rw [if_neg h]

theorem formatFields_eq_append (d : Doc) (ks : List String) (acc : Doc)
    (hnd : ks.Nodup) (hdisj : ∀ k ∈ ks, k ∉ docKeys acc) :
    formatFields "_" "_" d ks acc = acc ++ ks.filterMap (canonicalField d) := by
  induction ks generalizing acc with
  | nil => simp [formatFields]
  | cons k tl ih =>
    have hknotin : k ∉ docKeys acc := hdisj k (List.mem_cons_self k tl)
    have hndtl : tl.Nodup := (List.nodup_cons.mp hnd).2
    have hknot_tl : k ∉ tl := (List.nodup_cons.mp hnd).1
    have hdisj_tl : ∀ k2 ∈ tl, k2 ∉ docKeys acc :=
      fun k2 hk2 => hdisj k2 (List.mem_cons_of_mem k hk2)
    cases hv : jsGet d k with
    | none =>
      simp only [formatFields, hv, List.filterMap_cons, canonicalField,
        canonicalVal, Option.map_none]
      exact ih acc hndtl hdisj_tl
    | some v =>
      by_cases hnull : v = DVal.vNull
      · simp only [formatFields, hv, if_pos hnull, List.filterMap_cons,
          canonicalField, canonicalVal, hnull, if_pos rfl, Option.map_none]
        exact ih acc hndtl hdisj_tl
      · have hset : objSet acc (renameKey "_" "_" k) v = acc ++ [(k, v)] := by
          rw [renameKey_underscore]
          exact objSet_of_not_mem acc k v hknotin
        simp only [formatFields, hv, if_neg hnull, hset]
        rw [ih (acc ++ [(k, v)]) hndtl ?_]
        · simp [List.filterMap_cons, canonicalField, canonicalVal, hv,
            if_neg hnull]
        · intro k2 hk2
          simp only [docKeys, List.map_append, List.mem_append, not_or]
          constructor
          · exact fun hmem => hdisj_tl k2 hk2 hmem
          · simp only [List.map_cons, List.map_nil, List.mem_singleton]
            intro hkk
            exact hknot_tl (hkk ▸ hk2)

theorem jsGet_filterMap_canonical (d : Doc) (ks : List String) (k : String) :
    jsGet (ks.filterMap (canonicalField d)) k =
      if k ∈ ks then canonicalVal d k else none := by
  induction ks with
  | nil => simp [jsGet]
  | cons k1 tl ih =>
    by_cases hk1 : k = k1
    · subst hk1
      cases hcv : canonicalVal d k with
      | none =>
        have hfm : List.filterMap (canonicalField d) (k :: tl) =
            List.filterMap (canonicalField d) tl := by
          simp [List.filterMap_cons, canonicalField, hcv]
        rw [hfm, ih]
        by_cases hmem : k ∈ tl
        · simp [hmem, hcv]
        · simp [hmem]
      | some v =>
        have hfm : List.filterMap (canonicalField d) (k :: tl) =
            (k, v) :: List.filterMap (canonicalField d) tl := by
          simp [List.filterMap_cons, canonicalField, hcv]
        rw [hfm]
        simp [jsGet, List.find?, hcv]
    · cases hcv : canonicalVal d k1 with
      | none =>
        have hfm : List.filterMap (canonicalField d) (k1 :: tl) =
            List.filterMap (canonicalField d) tl := by
          simp [List.filterMap_cons, canonicalField, hcv]
        rw [hfm, ih]
        simp [List.mem_cons, hk1]
      | some v =>
        have hfm : List.filterMap (canonicalField d) (k1 :: tl) =
            (k1, v) :: List.filterMap (canonicalField d) tl := by
          simp [List.filterMap_cons, canonicalField, hcv]
        have hne : (k1 == k) = false := by
          simp only [beq_eq_false_iff_ne, ne_eq]
          exact fun hkk => hk1 hkk.symm
        rw [hfm]
        simp only [jsGet, List.find?, hne] at ih ⊢
        rw [ih]
        simp [List.mem_cons, hk1]

theorem jsGet_stripNulls (d : Doc) (k : String) (hnd : (docKeys d).Nodup) :
    jsGet (stripNulls d) k = canonicalVal d k := by
  induction d with
  | nil => simp [stripNulls, jsGet, canonicalVal]
  | cons kv tl ih =>
    have hndtl : (docKeys tl).Nodup := (List.nodup_cons.mp hnd).2
    have hnotin : kv.1 ∉ docKeys tl := (List.nodup_cons.mp hnd).1
    by_cases hk : kv.1 = k
    · subst hk
      by_cases hnull : kv.2 = DVal.vNull
      · have htl : jsGet tl kv.1 = none :=
          jsGet_eq_none_of_not_mem tl kv.1 hnotin
        have hcv : canonicalVal tl kv.1 = none := by
          simp [canonicalVal, htl]
        have hfc : stripNulls (kv :: tl) = stripNulls tl := by
          simp [stripNulls, List.filter_cons, hnull]
        rw [hfc, ih hndtl, hcv]
        simp [canonicalVal, jsGet, List.find?, hnull]
      · have hfc : stripNulls (kv :: tl) = kv :: stripNulls tl := by
          simp [stripNulls, List.filter_cons, hnull]
        rw [hfc]
        simp [canonicalVal, jsGet, List.find?, hnull]
    · have hne : (kv.1 == k) = false := by
        simp only [beq_eq_false_iff_ne, ne_eq]
        exact hk
      have heq : canonicalVal (kv :: tl) k = canonicalVal tl k := by
        simp [canonicalVal, jsGet, List.find?, hne]
      rw [heq]
      by_cases hnull : kv.2 = DVal.vNull
      · have hfc : stripNulls (kv :: tl) = stripNulls tl := by
          simp [stripNulls, List.filter_cons, hnull]
        rw [hfc, ih hndtl]
      · have hfc : stripNulls (kv :: tl) = kv :: stripNulls tl := by
          simp [stripNulls, List.filter_cons, hnull]
        rw [hfc]
        simp only [jsGet, List.find?, hne]
        have := ih hndtl
        simp only [jsGet] at this
        exact this

/-- Under the default prefix the formatting pass reads back, per key, as
the null-stripped first binding. -/
theorem formatDocument_jsGet (d : Doc) (k : String)
    (hnd : (docKeys d).Nodup) :
    jsGet (formatDocument "_" "_" d) k = canonicalVal d k := by
  have hperm := sortKeys_perm (docKeys d)
  have hndsort : (sortKeys (docKeys d)).Nodup := hperm.nodup_iff.mpr hnd
  have heq := formatFields_eq_append d (sortKeys (docKeys d)) [] hndsort
    (by intro k2 _; simp [docKeys])
  unfold formatDocument
  rw [heq, List.nil_append, jsGet_filterMap_canonical]
  by_cases hmem : k ∈ docKeys d
  · rw [if_pos (hperm.mem_iff.mpr hmem)]
  · rw [if_neg (fun hc => hmem (hperm.mem_iff.mp hc))]
    simp [canonicalVal, jsGet_eq_none_of_not_mem d k hmem]

/-- Keys of the formatted document form a sublist of the processed key
list, hence stay duplicate-free. -/
theorem docKeys_filterMap_canonical (d : Doc) (ks : List String) :
    (docKeys (ks.filterMap (canonicalField d))).Sublist ks := by
  induction ks with
  | nil => simp [docKeys]
  | cons k tl ih =>
    cases hcv : canonicalVal d k with
    | none =>
      simp only [canonicalField, hcv, Option.map_none, List.filterMap_cons]
      exact ih.cons k
    | some v =>
      simp only [canonicalField, hcv, Option.map_some, List.filterMap_cons,
        docKeys, List.map_cons]
      exact List.Sublist.cons₂ k ih

theorem formatDocument_nodup (d : Doc) (hnd : (docKeys d).Nodup) :
    (docKeys (formatDocument "_" "_" d)).Nodup := by
  have hperm := sortKeys_perm (docKeys d)
  have hndsort : (sortKeys (docKeys d)).Nodup := hperm.nodup_iff.mpr hnd
  have heq := formatFields_eq_append d (sortKeys (docKeys d)) [] hndsort
    (by intro k2 _; simp [docKeys])
  unfold formatDocument
  rw [heq, List.nil_append]
  exact (docKeys_filterMap_canonical d _).nodup hndsort

/-- Formatting with the identity prefix changes no key's canonical value,
so a second formatting pass reads back as the first. -/
theorem canonicalVal_formatDocument (d : Doc) (k : String)
    (hnd : (docKeys d).Nodup) :
    canonicalVal (formatDocument "_" "_" d) k = canonicalVal d k := by
  unfold canonicalVal
  rw [formatDocument_jsGet d k hnd]
  cases hv : jsGet d k with
  | none => simp [canonicalVal, hv]
  | some v =>
    by_cases hnull : v = DVal.vNull
    · simp [canonicalVal, hv, hnull]
    · simp [canonicalVal, hv, hnull]

/-- C9, amended.  With the default external prefix `_`, feeding a document
whose fields all carry the internal `_` prefix through
`formatResultSetForInput` and then `formatResultSetForOutput` yields a
document with exactly the fields of `x` minus its `null`-valued fields
(document equality read as JavaScript object equality: the same value at
every key). -/
theorem roundtrip_format_default_prefix (d : Doc)
    (hnd : (docKeys d).Nodup)
    (hpre : ∀ kv ∈ d, jsStartsWith "_" kv.1 = true) (k : String) :
    jsGet (formatResultSetForOutput "_" (formatResultSetForInput "_" d)) k =
      jsGet (stripNulls d) k := by
  have h1 : formatResultSetForInput "_" d = formatDocument "_" "_" d := rfl
  have h2 : formatResultSetForOutput "_" (formatDocument "_" "_" d) =
      formatDocument "_" "_" (formatDocument "_" "_" d) := rfl
  rw [h1, h2]
  have hnd1 : (docKeys (formatDocument "_" "_" d)).Nodup :=
    formatDocument_nodup d hnd
  rw [formatDocument_jsGet (formatDocument "_" "_" d) k hnd1,
    canonicalVal_formatDocument d k hnd, jsGet_stripNulls d k hnd]

/-- Witness for the amended C9 round-trip theorem at a concrete document
with one null-valued field. -/
theorem roundtrip_format_default_prefix_witness :
    ((docKeys [("_id", DVal.vStr "a"), ("_name", DVal.vNull)]).Nodup ∧
      jsGet (formatResultSetForOutput "_"
        (formatResultSetForInput "_"
          [("_id", DVal.vStr "a"), ("_name", DVal.vNull)])) "_name" =
        jsGet (stripNulls [("_id", DVal.vStr "a"), ("_name", DVal.vNull)])
          "_name") :=
  ⟨by decide,
    roundtrip_format_default_prefix
      [("_id", DVal.vStr "a"), ("_name", DVal.vNull)]
      (by decide) (by decide) "_name"⟩

/-- C9, counterexample.  With a configured external prefix other than `_`
(here `$`), the round-trip does not return `x` up to null stripping: the
internal `_` prefix is renamed to the external prefix on the way out, so
the field `_id` comes back as `$id`. -/
theorem roundtrip_format_counterexample :
    formatResultSetForOutput "$"
        (formatResultSetForInput "$" [("_id", DVal.vStr "a")]) ≠
      stripNulls [("_id", DVal.vStr "a")] ∧
    jsGet (formatResultSetForOutput "$"
        (formatResultSetForInput "$" [("_id", DVal.vStr "a")])) "_id" ≠
      jsGet (stripNulls [("_id", DVal.vStr "a")]) "_id" := by
  constructor <;> decide

/-! Embedding of the compose-option handling of `Model.prototype.find`
(src/dadi/lib/model/index.js:511-515 and 681-690). -/

/-- JavaScript truthiness of a value, the test `if (self.compose)` applies
to the stored compose setting. -/
def truthy : DVal → Bool
  | DVal.vNull => false
  | DVal.vBool b => b
  | DVal.vInt n => n != 0
  | DVal.vStr s => s != ""
  | DVal.vStrList _ => true

/-- The slice of the options object `find` consults for composition: the
`compose` key is either absent or holds a value. -/
structure FindOptions where
  composeOption : Option DVal
deriving Repr, DecidableEq

/-- The option-handling step of `Model.prototype.find`
(src/dadi/lib/model/index.js:511-515): when the options object carries a
`compose` key, `self.compose` is overwritten with its value and the key is
deleted from the options; otherwise the model state is untouched.  The
first component is the model's compose setting after the call (`none`
models an `undefined` setting). -/
def findComposeStep (modelCompose : Option DVal) (options : FindOptions) :
    Option DVal × FindOptions :=
  match options.composeOption with
  | some v => (some v, { composeOption := none })
  | none => (modelCompose, options)

/-- The composition decision of `Model.prototype.find`
(src/dadi/lib/model/index.js:681): results are composed exactly when the
stored `self.compose` is truthy. -/
def composeApplied (modelCompose : Option DVal) : Bool :=
  match modelCompose with
  | some v => truthy v
  | none => false

/-- One call to `find`, restricted to its compose bookkeeping: the model's
compose setting after the call, and whether this call composed its
results. -/
def findRunCompose (modelCompose : Option DVal) (options : FindOptions) :
    Option DVal × Bool :=
  let stepped := findComposeStep modelCompose options
  (stepped.1, composeApplied stepped.1)

/-- C10.  A `find` whose options carry a `compose` key overwrites the model
instance's compose setting with that value, the change survives the call,
and a subsequent `find` without a `compose` option composes according to
the previous caller's override (independently of the collection's
configured default `m`). -/
theorem find_compose_option_persists (m : Option DVal) (v : DVal) :
    (findRunCompose m { composeOption := some v }).1 = some v ∧
      findRunCompose (findRunCompose m { composeOption := some v }).1
          { composeOption := none } =
        (some v, truthy v) := by
  constructor
  · rfl
  · rfl

/-! Embedding of the hook pipelines and of `Model.prototype.create`
(src/dadi/lib/model/index.js:161-313). -/

/-- Result of one hook handler application.  The Hook module
(`src/dadi/lib/model/hook.js`) is not part of the provided source, so a
handler is a parameter: it resolves with a replacement value, resolves
with an explicit `null`, or rejects.  The value type is the pipeline's
accumulated value: a document for `beforeCreate`/`beforeUpdate`, a query
for `beforeDelete`. -/
inductive HookRes (α : Type) where
  | value (a : α)
  | nullValue
  | failure (e : String)

/-- A hook handler over a document-shaped value. -/
abbrev HookFn := Doc → HookRes Doc

/-- The error payload a hook pipeline aborts with: the literal empty
object `{}` the code passes when a handler resolved with `null`
(`callback((newDoc === null) ? {} : null, newDoc)`), or
`hook.formatError(err)` when a handler rejected. -/
inductive HookErr where
  | emptyObject
  | formatted (e : String)
deriving Repr, DecidableEq

/-- The `async.reduce` hook fold used by `beforeCreate`
(src/dadi/lib/model/index.js:222-231), `beforeUpdate` (1217-1224) and
`beforeDelete` (425-433): each handler receives the accumulated value;
a truthy error argument stops the fold.  Because the code passes `{}`
(a truthy error) when a handler resolves with `null`, such a handler
aborts the fold. -/
def hookReduce {α : Type} : List (α → HookRes α) → α → Except HookErr α
  | [], current => Except.ok current
  | h :: hs, current =>
    match h current with
    | HookRes.value a => hookReduce hs a
    | HookRes.nullValue => Except.error HookErr.emptyObject
    | HookRes.failure e => Except.error (HookErr.formatted e)

/-- Validation result of the Validator module
(`src/dadi/lib/model/validator.js`, not part of the provided source):
a success flag and a structured error list. -/
structure ValidationResult where
  success : Bool
  errors : List String
deriving Repr, DecidableEq

/-- The batch-validation loop of `Model.prototype.create`
(src/dadi/lib/model/index.js:180-184): each document is validated only
while no failure has been recorded, so the recorded result is the first
failure, or the last document's result when all pass, or `none` for an
empty batch (on which the subsequent `validation.success` read throws). -/
def createValidateStep (validate : Doc → ValidationResult)
    (validation : Option ValidationResult) (doc : Doc) :
    Option ValidationResult :=
  match validation with
  | none => some (validate doc)
  | some v => if v.success then some (validate doc) else some v

def createValidate (validate : Doc → ValidationResult) (docs : List Doc) :
    Option ValidationResult :=
  docs.foldl (createValidateStep validate) none

/-- `Object.assign(doc, internals)`: every entry of the source object is
assigned onto the target in order. -/
def jsAssign (d : Doc) (src : Doc) : Doc :=
  src.foldl (fun acc kv => objSet acc kv.1 kv.2) d

/-- Errors `Model.prototype.create` reports through its `done` callback. -/
inductive CreateErr where
  | connection
  | validationFailed (errors : List String)
  | composerError (e : String)
  | hookFailure (e : HookErr)
deriving Repr, DecidableEq

/-- The status classification attached to a create error:
`createConnectionError()` carries 503, `createValidationError()` carries
400 (src/dadi/lib/model/index.js:1240-1252); the hook error response is a
plain `{success, errors}` object with no status code. -/
def createErrStatusCode : CreateErr → Option Nat
  | CreateErr.connection => some 503
  | CreateErr.validationFailed _ => some 400
  | CreateErr.composerError _ => none
  | CreateErr.hookFailure _ => none

/-- What `Model.prototype.create` hands to its caller: the reported value
of the first `done` call, or `crashed` for the empty batch, on which
reading `validation.success` of `undefined` throws. -/
inductive CreateOutcome where
  | crashed
  | failed (e : CreateErr)
  | ok (results : List Doc)
deriving Repr, DecidableEq

/-- Storage and side effects a model operation issues, in order. -/
inductive Eff where
  | insertEff (collection : String) (docs : List Doc)
  | findEff (collection : String)
  | updateEff (collection : String) (setFields : Doc) (incVersion : Int)
  | deleteEff (collection : String)
  | historyEff (snapshots : List Doc) (kind : String)
  | searchIndexEff
  | searchDeleteEff
  | logErrorEff
deriving Repr, DecidableEq

/-- Whether an effect mutates stored data. -/
def mutatingEff : Eff → Bool
  | Eff.insertEff _ _ => true
  | Eff.updateEff _ _ _ => true
  | Eff.deleteEff _ => true
  | Eff.historyEff _ _ => true
  | _ => false

/-- Modelled from the spec: the Composer module
(`src/dadi/lib/model/composer.js`) is not part of the provided source.
Spec section 4.3 and the invariants section state that composition
replaces reference-field values (foreign ids) with the fetched foreign
documents and mutates nothing else of the document.  Which fields are
reference fields comes from the schema (`isRefField`); the per-value
replacement is a parameter (`composeResolve`). -/
def composeStep (isRefField : String → Bool) (composeResolve : DVal → DVal)
    (d : Doc) : Doc :=
  d.map (fun kv => if isRefField kv.1 then (kv.1, composeResolve kv.2) else kv)

/-- The collaborators and settings `Model.prototype.create` consults.
`validateSchema` stands for the Validator module, `createFromComposed`
for the Composer's pre-composed-reference pass, `hooksBeforeCreate` for
`settings.hooks.beforeCreate` (each entry a handler); none of these
modules is part of the provided source.  `storeRevisions` is
`settings.storeRevisions !== false` (src/dadi/lib/model/index.js:95). -/
structure CreateEnv where
  name : String
  hasDb : Bool
  storeRevisions : Bool
  iPrefix : String
  validateSchema : Doc → ValidationResult
  hooksBeforeCreate : Option (List HookFn)
  createFromComposed : Doc → Except String Unit
  isRefField : String → Bool
  composeResolve : DVal → DVal

/-- The document-preparation steps of `Model.prototype.create`
(src/dadi/lib/model/index.js:194-215): merge `internals` into every
document, initialise `_history` to an empty array when revisioning is
enabled, set `_version` to 1.  The DateTime pass at lines 213-215 assigns
`queryUtils.convertDateTimeForSave`'s result to the `forEach` loop
variable only, so it leaves the batch unchanged under value semantics. -/
def prepareCreateDocs (env : CreateEnv) (docs : List Doc)
    (internals : Option Doc) : List Doc :=
  let docs1 := match internals with
    | some ints => docs.map (fun d => jsAssign d ints)
    | none => docs
  let docs2 :=
    if env.storeRevisions then
      docs1.map (fun d => objSet d "_history" (DVal.vStrList []))
    else docs1
  docs2.map (fun d => objSet d "_version" (DVal.vInt 1))

/-- The acting error of the per-document `beforeCreate` pipelines
(src/dadi/lib/model/index.js:219-247): each document runs its own
`async.reduce`, the shared counter fires on the last chain to finish,
and only that chain's error is inspected (its transformed value is
discarded; `saveDocuments` inserts the original `documents` array).
Chains are linearised in batch order, so the acting error is the last
document's. -/
def createHookErr (hooks : List HookFn) (docs : List Doc) : Option HookErr :=
  match (docs.map (fun d => hookReduce hooks d)).getLast? with
  | some (Except.error e) => some e
  | _ => none

/-- The output assembly of `saveDocuments`
(src/dadi/lib/model/index.js:253-293): the datastore insert returns the
inserted documents (spec section 6), which are composed and formatted for
output.  The `afterCreate` hooks (lines 271-279) are applied for their
side effects only: their return values are ignored by the code. -/
def createOutput (env : CreateEnv) (docs : List Doc) : List Doc :=
  (docs.map (composeStep env.isRefField env.composeResolve)).map
    (formatResultSetForOutput env.iPrefix)

/-- The first error of the per-document `createFromComposed` callbacks
(src/dadi/lib/model/index.js:300-312): the first failing document's
callback calls `done(err.json)` first, so its error is what the caller
sees. -/
def createCfcFirstErr (env : CreateEnv) (docs : List Doc) : Option String :=
  docs.findSome? (fun d =>
    match env.createFromComposed d with
    | Except.error e => some e
    | Except.ok _ => none)

/-- Whether `startInsert` runs: it is called from the last document's
`createFromComposed` callback (src/dadi/lib/model/index.js:308-310), and
only when that document's pass did not error (an erroring callback
returns before the index check). -/
def createLastCfcOk (env : CreateEnv) (docs : List Doc) : Bool :=
  match docs.getLast? with
  | some d =>
    match env.createFromComposed d with
    | Except.ok _ => true
    | Except.error _ => false
  | none => false

/-- The acting hook error of `startInsert`, when it runs. -/
def createActingHookErr (env : CreateEnv) (docs : List Doc) : Option HookErr :=
  if createLastCfcOk env docs then
    match env.hooksBeforeCreate with
    | some hooks => createHookErr hooks docs
    | none => none
  else none

/-- The storage effects `create` issues: the insert (followed by the
asynchronous search indexing) happens exactly when `startInsert` ran and
the acting hook pipeline did not abort. -/
def createInsertTrace (env : CreateEnv) (docs : List Doc) : List Eff :=
  if createLastCfcOk env docs = true ∧ createActingHookErr env docs = none then
    [Eff.insertEff env.name docs, Eff.searchIndexEff]
  else []

/-- The value of the first `done` call after document preparation. -/
def createResolveOutcome (env : CreateEnv) (docs : List Doc) : CreateOutcome :=
  match createCfcFirstErr env docs with
  | some e => CreateOutcome.failed (CreateErr.composerError e)
  | none =>
    match createActingHookErr env docs with
    | some e => CreateOutcome.failed (CreateErr.hookFailure e)
    | none => CreateOutcome.ok (createOutput env docs)

/-- `Model.prototype.create` (src/dadi/lib/model/index.js:161-313),
linearised.  Order of stages as in the source: connection check, batch
validation, internals merge, `_history`/`_version` initialisation,
per-document `createFromComposed`, `beforeCreate` hook pipelines, storage
insert, composition, search indexing, output formatting.  The second
component is the trace of storage effects. -/
def createRun (env : CreateEnv) (documents : List Doc)
    (internals : Option Doc) : CreateOutcome × List Eff :=
  if env.hasDb = false then (CreateOutcome.failed CreateErr.connection, [])
  else
    match createValidate env.validateSchema documents with
    | none => (CreateOutcome.crashed, [])
    | some v =>
      if v.success = false then
        (CreateOutcome.failed (CreateErr.validationFailed v.errors), [])
      else
        (createResolveOutcome env (prepareCreateDocs env documents internals),
          createInsertTrace env (prepareCreateDocs env documents internals))

/-! Lemmas about object assignment, internals merging, composition and
the prepared create batch. -/

theorem jsGet_objSet_self (d : Doc) (k : String) (v : DVal) :
    jsGet (objSet d k v) k = some v := by
  unfold objSet
  by_cases h : (d.find? (fun kv => kv.1 == k)).isSome
  · rw [if_pos h]
    induction d with
    | nil => simp at h
    | cons kv tl ih =>
      by_cases hk : kv.1 = k
      · have hbeq : (kv.1 == k) = true := by simpa using hk
        simp [jsGet, List.find?, hbeq]
      · have hbeq : (kv.1 == k) = false := by simpa using hk
        simp only [List.find?, hbeq] at h
        have := ih h
        simpa [jsGet, List.map_cons, hbeq, List.find?] using this
  · rw [if_neg h]
    have hfind : d.find? (fun kv => kv.1 == k) = none := by
      cases hf : d.find? (fun kv => kv.1 == k) with
      | none => rfl
      | some x => rw [hf] at h; simp at h
    induction d with
    | nil => simp [jsGet, List.find?]
    | cons kv tl ih =>
      cases hbeq : (kv.1 == k) with
      | true => simp [List.find?, hbeq] at hfind
      | false =>
        simp only [List.find?, hbeq] at hfind
        have hsome : (tl.find? (fun kv => kv.1 == k)).isSome = false := by
          simp [hfind]
        have := ih (by simp [hfind]) hfind
        simpa [jsGet, List.cons_append, List.find?, hbeq] using this

theorem jsGet_objSet_other (d : Doc) (k k2 : String) (v : DVal)
    (h : k2 ≠ k) : jsGet (objSet d k v) k2 = jsGet d k2 := by
  unfold objSet
  by_cases hf : (d.find? (fun kv => kv.1 == k)).isSome
  · rw [if_pos hf]
    clear hf
    induction d with
    | nil => simp
    | cons kv tl ih =>
      by_cases hk : kv.1 = k
      · have hbeq : (kv.1 == k) = true := by simpa using hk
        have hne1 : (k == k2) = false := by
          simp only [beq_eq_false_iff_ne, ne_eq]
          exact fun hkk => h hkk.symm
        have hne2 : (kv.1 == k2) = false := by
          simp only [beq_eq_false_iff_ne, ne_eq]
          intro hkk
          exact h (hkk ▸ hk)
        simpa [jsGet, List.map_cons, hbeq, List.find?, hne1, hne2] using ih
      · have hbeq : (kv.1 == k) = false := by simpa using hk
        cases hbeq2 : (kv.1 == k2) with
        | true => simp [jsGet, List.map_cons, hbeq, List.find?, hbeq2]
        | false =>
          simpa [jsGet, List.map_cons, hbeq, List.find?, hbeq2] using ih
  · rw [if_neg hf]
    have hne1 : (k == k2) = false := by
      simp only [beq_eq_false_iff_ne, ne_eq]
      exact fun hkk => h hkk.symm
    induction d with
    | nil => simp [jsGet, List.find?, hne1]
    | cons kv tl ih =>
      cases hbeq2 : (kv.1 == k2) with
      | true => simp [jsGet, List.cons_append, List.find?, hbeq2]
      | false =>
        have hf2 : (tl.find? (fun kv => kv.1 == k)).isSome = false := by
          cases hbeq : (kv.1 == k) with
          | true => simp [List.find?, hbeq] at hf
          | false =>
            simp only [List.find?, hbeq] at hf
            exact Bool.eq_false_iff.mpr hf
        simpa [jsGet, List.cons_append, List.find?, hbeq2] using ih (by simp [hf2])

theorem docKeys_map_fst_preserving (f : String × DVal → String × DVal)
    (d : Doc) (hf : ∀ kv, (f kv).1 = kv.1) : docKeys (d.map f) = docKeys d := by
  induction d with
  | nil => rfl
  | cons kv tl ih =>
    simp only [docKeys, List.map_cons] at ih ⊢
    rw [hf kv, ih]

theorem docKeys_objSet_replace (d : Doc) (k : String) (v : DVal) :
    docKeys (d.map (fun kv => if kv.1 == k then (k, v) else kv)) =
      docKeys d := by
  apply docKeys_map_fst_preserving
  intro kv
  by_cases hk : kv.1 = k
  · simp [hk]
  · simp [hk]

theorem docKeys_objSet_nodup (d : Doc) (k : String) (v : DVal)
    (hnd : (docKeys d).Nodup) : (docKeys (objSet d k v)).Nodup := by
  unfold objSet
  by_cases hf : (d.find? (fun kv => kv.1 == k)).isSome
  · rw [if_pos hf, docKeys_objSet_replace]
    exact hnd
  · rw [if_neg hf]
    have hnot : k ∉ docKeys d := by
      intro hmem
      apply hf
      obtain ⟨kv, hkv, hkk⟩ := List.mem_map.mp hmem
      rw [List.find?_isSome]
      exact ⟨kv, hkv, by simpa using hkk⟩
    simp only [docKeys, List.map_append]
    rw [List.nodup_append]
    refine ⟨hnd, by simp, ?_⟩
    intro a ha hb
    simp only [List.map_cons, List.map_nil, List.mem_singleton] at hb
    exact hnot (hb ▸ ha)

theorem jsGet_jsAssign_not_mem (d src : Doc) (k : String)
    (h : k ∉ docKeys src) : jsGet (jsAssign d src) k = jsGet d k := by
  induction src generalizing d with
  | nil => rfl
  | cons kv tl ih =>
    simp only [docKeys, List.map_cons, List.mem_cons, not_or] at h
    have h1 : jsGet (jsAssign (objSet d kv.1 kv.2) tl) k =
        jsGet (objSet d kv.1 kv.2) k :=
      ih (objSet d kv.1 kv.2) (by simpa [docKeys] using h.2)
    have h2 : jsGet (objSet d kv.1 kv.2) k = jsGet d k :=
      jsGet_objSet_other d kv.1 k kv.2 (fun hkk => h.1 hkk)
    calc jsGet (jsAssign d (kv :: tl)) k
        = jsGet (jsAssign (objSet d kv.1 kv.2) tl) k := rfl
      _ = jsGet d k := by rw [h1, h2]

theorem jsAssign_nodup (d src : Doc) (hnd : (docKeys d).Nodup) :
    (docKeys (jsAssign d src)).Nodup := by
  induction src generalizing d with
  | nil => exact hnd
  | cons kv tl ih =>
    exact ih (objSet d kv.1 kv.2) (docKeys_objSet_nodup d kv.1 kv.2 hnd)

theorem docKeys_composeStep (f : String → Bool) (g : DVal → DVal) (d : Doc) :
    docKeys (composeStep f g d) = docKeys d := by
  induction d with
  | nil => rfl
  | cons kv tl ih =>
    cases hf : f kv.1 with
    | true => simp [composeStep, docKeys, List.map_cons, hf] at ih ⊢; exact ih
    | false => simp [composeStep, docKeys, List.map_cons, hf] at ih ⊢; exact ih

theorem jsGet_composeStep_not_ref (f : String → Bool) (g : DVal → DVal)
    (d : Doc) (k : String) (hf : f k = false) :
    jsGet (composeStep f g d) k = jsGet d k := by
  induction d with
  | nil => rfl
  | cons kv tl ih =>
    by_cases hk : kv.1 = k
    · subst hk
      simp [composeStep, jsGet, List.find?, hf]
    · have hbeq : (kv.1 == k) = false := by simpa using hk
      cases hfk : f kv.1 with
      | true => simpa [composeStep, jsGet, List.map_cons, hfk, List.find?, hbeq] using ih
      | false => simpa [composeStep, jsGet, List.map_cons, hfk, List.find?, hbeq] using ih

/-! Lemmas about the create pipeline. -/

theorem createValidateFold_keeps_failure (validate : Doc → ValidationResult)
    (docs : List Doc) (v : ValidationResult) (hv : v.success = false) :
    docs.foldl (createValidateStep validate) (some v) = some v := by
  induction docs with
  | nil => rfl
  | cons d tl ih =>
    have hstep : createValidateStep validate (some v) d = some v := by
      simp [createValidateStep, hv]
    simp only [List.foldl_cons, hstep]
    exact ih

theorem createValidateFold_fails (validate : Doc → ValidationResult)
    (docs : List Doc) (acc : Option ValidationResult)
    (h : (∃ d ∈ docs, (validate d).success = false) ∨
      (∃ v, acc = some v ∧ v.success = false)) :
    ∃ v, docs.foldl (createValidateStep validate) acc = some v ∧
      v.success = false := by
  induction docs generalizing acc with
  | nil =>
    rcases h with ⟨d, hd, _⟩ | ⟨v, hacc, hv⟩
    · exact absurd hd (List.not_mem_nil d)
    · exact ⟨v, by simpa using hacc, hv⟩
  | cons d tl ih =>
    simp only [List.foldl_cons]
    rcases h with ⟨d0, hd0, hbad⟩ | ⟨v, hacc, hv⟩
    · rcases List.mem_cons.mp hd0 with hdd | hdtl
      · subst hdd
        refine ih (createValidateStep validate acc d0) (Or.inr ?_)
        cases acc with
        | none => exact ⟨validate d0, rfl, hbad⟩
        | some v =>
          by_cases hvs : v.success = true
          · exact ⟨validate d0, by simp [createValidateStep, hvs], hbad⟩
          · have hvf : v.success = false := by
              cases hb : v.success with
              | true => exact absurd hb hvs
              | false => rfl
            exact ⟨v, by simp [createValidateStep, hvf], hvf⟩
      · exact ih (createValidateStep validate acc d) (Or.inl ⟨d0, hdtl, hbad⟩)
    · subst hacc
      have hstep : createValidateStep validate (some v) d = some v := by
        simp [createValidateStep, hv]
      rw [hstep]
      exact ih (some v) (Or.inr ⟨v, rfl, hv⟩)

theorem prepareCreateDocs_facts (env : CreateEnv) (documents : List Doc)
    (internals : Option Doc) (p : Doc)
    (hp : p ∈ prepareCreateDocs env documents internals)
    (hnd : ∀ d ∈ documents, (docKeys d).Nodup)
    (hnoH : ∀ d ∈ documents, "_history" ∉ docKeys d)
    (hintH : ∀ ints, internals = some ints → "_history" ∉ docKeys ints) :
    (docKeys p).Nodup ∧
      jsGet p "_version" = some (DVal.vInt 1) ∧
      (env.storeRevisions = true → jsGet p "_history" = some (DVal.vStrList [])) ∧
      (env.storeRevisions = false → jsGet p "_history" = none) := by
  have hne : ("_history" : String) ≠ "_version" := by decide
  unfold prepareCreateDocs at hp
  obtain ⟨q, hq, rfl⟩ := List.mem_map.mp hp
  have hdocs1 : ∀ q1, (q1 ∈ match internals with
      | some ints => documents.map (fun d => jsAssign d ints)
      | none => documents) →
      (docKeys q1).Nodup ∧ jsGet q1 "_history" = none := by
    intro q1 hq1
    cases hints : internals with
    | none =>
      rw [hints] at hq1
      exact ⟨hnd q1 hq1,
        jsGet_eq_none_of_not_mem q1 "_history" (hnoH q1 hq1)⟩
    | some ints =>
      rw [hints] at hq1
      obtain ⟨d0, hd0, rfl⟩ := List.mem_map.mp hq1
      constructor
      · exact jsAssign_nodup d0 ints (hnd d0 hd0)
      · rw [jsGet_jsAssign_not_mem d0 ints "_history" (hintH ints hints)]
        exact jsGet_eq_none_of_not_mem d0 "_history" (hnoH d0 hd0)
  cases hrev : env.storeRevisions with
  | true =>
    rw [hrev] at hq
    simp only [if_true] at hq
    obtain ⟨q1, hq1, rfl⟩ := List.mem_map.mp hq
    obtain ⟨hq1nd, _⟩ := hdocs1 q1 hq1
    refine ⟨?_, jsGet_objSet_self _ "_version" (DVal.vInt 1), ?_, ?_⟩
    · exact docKeys_objSet_nodup _ _ _ (docKeys_objSet_nodup _ _ _ hq1nd)
    · intro _
      rw [jsGet_objSet_other _ "_version" "_history" (DVal.vInt 1) hne]
      exact jsGet_objSet_self q1 "_history" (DVal.vStrList [])
    · intro hfalse
      cases hfalse
  | false =>
    rw [hrev] at hq
    simp only [Bool.false_eq_true, if_false] at hq
    obtain ⟨hqnd, hqnone⟩ := hdocs1 q hq
    refine ⟨docKeys_objSet_nodup _ _ _ hqnd,
      jsGet_objSet_self _ "_version" (DVal.vInt 1), ?_, ?_⟩
    · intro htrue
      cases htrue
    · intro _
      rw [jsGet_objSet_other _ "_version" "_history" (DVal.vInt 1) hne]
      exact hqnone

theorem createRun_ok_inv (env : CreateEnv) (documents : List Doc)
    (internals : Option Doc) (results : List Doc)
    (h : (createRun env documents internals).1 = CreateOutcome.ok results) :
    results = createOutput env (prepareCreateDocs env documents internals) := by
  unfold createRun at h
  split at h
  · simp at h
  · split at h
    · simp at h
    · split at h
      · simp at h
      · unfold createResolveOutcome at h
        split at h
        · simp at h
        · split at h
          · simp at h
          · simpa using h.symm

/-- C2.  Every document returned by a successful `create` call has
`_version` equal to 1, and exactly when revisioning is enabled for the
collection (`settings.storeRevisions !== false`) it has `_history`
initialised to an empty array; with revisioning disabled no `_history`
field is added.  Stated under the default internal-fields prefix, for
batches of well-formed documents that do not already carry a `_history`
field, over schemas in which the internal fields are not reference
fields. -/
theorem create_initializes_version_and_history
    (env : CreateEnv) (documents : List Doc) (internals : Option Doc)
    (results : List Doc)
    (hout : (createRun env documents internals).1 = CreateOutcome.ok results)
    (hpre : env.iPrefix = "_")
    (hrefV : env.isRefField "_version" = false)
    (hrefH : env.isRefField "_history" = false)
    (hnd : ∀ d ∈ documents, (docKeys d).Nodup)
    (hnoH : ∀ d ∈ documents, "_history" ∉ docKeys d)
    (hintH : ∀ ints, internals = some ints → "_history" ∉ docKeys ints) :
    ∀ r ∈ results,
      jsGet r "_version" = some (DVal.vInt 1) ∧
        (env.storeRevisions = true →
          jsGet r "_history" = some (DVal.vStrList [])) ∧
        (env.storeRevisions = false → jsGet r "_history" = none) := by
  intro r hr
  rw [createRun_ok_inv env documents internals results hout] at hr
  unfold createOutput at hr
  obtain ⟨c, hc, rfl⟩ := List.mem_map.mp hr
  obtain ⟨p, hpmem, rfl⟩ := List.mem_map.mp hc
  obtain ⟨hpnd, hpv, hph1, hph0⟩ :=
    prepareCreateDocs_facts env documents internals p hpmem hnd hnoH hintH
  have hcnd : (docKeys (composeStep env.isRefField env.composeResolve p)).Nodup := by
    rw [docKeys_composeStep]
    exact hpnd
  have hfmt : formatResultSetForOutput env.iPrefix
      (composeStep env.isRefField env.composeResolve p) =
      formatDocument "_" "_" (composeStep env.isRefField env.composeResolve p) := by
    rw [hpre]
    rfl
  rw [hfmt]
  have hv1 : jsGet (composeStep env.isRefField env.composeResolve p)
      "_version" = some (DVal.vInt 1) := by
    rw [jsGet_composeStep_not_ref _ _ _ _ hrefV]
    exact hpv
  refine ⟨?_, ?_, ?_⟩
  · rw [formatDocument_jsGet _ _ hcnd]
    simp [canonicalVal, hv1]
  · intro hrev
    have hh : jsGet (composeStep env.isRefField env.composeResolve p)
        "_history" = some (DVal.vStrList []) := by
      rw [jsGet_composeStep_not_ref _ _ _ _ hrefH]
      exact hph1 hrev
    rw [formatDocument_jsGet _ _ hcnd]
    simp [canonicalVal, hh]
  · intro hrev
    have hh : jsGet (composeStep env.isRefField env.composeResolve p)
        "_history" = none := by
      rw [jsGet_composeStep_not_ref _ _ _ _ hrefH]
      exact hph0 hrev
    rw [formatDocument_jsGet _ _ hcnd]
    simp [canonicalVal, hh]

/-- C3.  When any document of a batch fails schema validation, `create`
reports a validation error whose status classification is 400 and issues
no storage effect at all: in particular no document of the batch, not
even an individually valid one, is inserted. -/
theorem create_validation_failure_aborts_batch
    (env : CreateEnv) (documents : List Doc) (internals : Option Doc)
    (hdb : env.hasDb = true)
    (d : Doc) (hd : d ∈ documents)
    (hbad : (env.validateSchema d).success = false) :
    (∃ errs, (createRun env documents internals).1 =
        CreateOutcome.failed (CreateErr.validationFailed errs) ∧
        createErrStatusCode (CreateErr.validationFailed errs) = some 400) ∧
      (createRun env documents internals).2 = [] := by
  obtain ⟨v, hfold, hvfail⟩ := createValidateFold_fails env.validateSchema
    documents none (Or.inl ⟨d, hd, hbad⟩)
  have hval : createValidate env.validateSchema documents = some v := hfold
  have hdbne : ¬env.hasDb = false := by simp [hdb]
  constructor
  · exact ⟨v.errors, by simp [createRun, hdbne, hval, hvfail], rfl⟩
  · simp [createRun, hdbne, hval, hvfail]

/-- A concrete collection environment for witnesses: a schema requiring a
`name` field, revisioning enabled, no hooks, no reference fields. -/
def witnessEnv : CreateEnv where
  name := "test-schema"
  hasDb := true
  storeRevisions := true
  iPrefix := "_"
  validateSchema := fun d =>
    if (jsGet d "name").isSome then ⟨true, []⟩
    else ⟨false, ["name must be specified"]⟩
  hooksBeforeCreate := none
  createFromComposed := fun _ => Except.ok ()
  isRefField := fun _ => false
  composeResolve := fun v => v

/-- Witness for C2 at the concrete call of the spec's scenario:
`create({name: "1984"}, {})` succeeds and the returned document carries
`_version = 1` and an empty `_history`. -/
theorem create_initializes_version_and_history_witness :
    jsGet [("_history", DVal.vStrList []), ("_version", DVal.vInt 1),
        ("name", DVal.vStr "1984")] "_version" = some (DVal.vInt 1) ∧
      jsGet [("_history", DVal.vStrList []), ("_version", DVal.vInt 1),
        ("name", DVal.vStr "1984")] "_history" = some (DVal.vStrList []) :=
  have happ := create_initializes_version_and_history witnessEnv
    [[("name", DVal.vStr "1984")]] none
    [[("_history", DVal.vStrList []), ("_version", DVal.vInt 1),
      ("name", DVal.vStr "1984")]]
    (by decide) rfl rfl rfl (by decide) (by decide)
    (fun ints h => Option.noConfusion h)
    [("_history", DVal.vStrList []), ("_version", DVal.vInt 1),
      ("name", DVal.vStr "1984")] (by decide)
  ⟨happ.1, happ.2.1 rfl⟩

/-- Witness for C3 at a concrete batch of one valid and one invalid
document: the whole batch is rejected with a 400 validation error and no
effect reaches storage. -/
theorem create_validation_failure_aborts_batch_witness :
    (∃ errs, (createRun witnessEnv [[("name", DVal.vStr "ok")], []] none).1 =
        CreateOutcome.failed (CreateErr.validationFailed errs) ∧
        createErrStatusCode (CreateErr.validationFailed errs) = some 400) ∧
      (createRun witnessEnv [[("name", DVal.vStr "ok")], []] none).2 = [] :=
  create_validation_failure_aborts_batch witnessEnv
    [[("name", DVal.vStr "ok")], []] none rfl [] (by decide) (by decide)

/-! Embedding of the datastore interface (spec section 6), the history
tracker, and `Model.prototype.update` / `Model.prototype.delete`. -/

/-- A single query condition on a field: equality with a value, the
`$containsAny` containment operator, or the `$in` membership operator. -/
inductive QCond where
  | eqVal (v : DVal)
  | containsAny (ids : List String)
  | inList (ids : List String)
deriving Repr, DecidableEq

/-- A query object: field name to condition (dot-notation reference paths
are handled before a query reaches storage). -/
abbrev Query := List (String × QCond)

/-- Whether one condition holds of a document's field.  The containment
operators match when the field's value (an id or an array of ids)
intersects the given id set. -/
def matchCond (d : Doc) (k : String) : QCond → Bool
  | QCond.eqVal v => jsGet d k == some v
  | QCond.containsAny ids =>
    match jsGet d k with
    | some (DVal.vStr s) => ids.contains s
    | some (DVal.vStrList l) => l.any (fun i => ids.contains i)
    | _ => false
  | QCond.inList ids =>
    match jsGet d k with
    | some (DVal.vStr s) => ids.contains s
    | some (DVal.vStrList l) => l.any (fun i => ids.contains i)
    | _ => false

/-- Whether a document matches every condition of a query. -/
def matchQuery (q : Query) (d : Doc) : Bool :=
  q.all (fun kc => matchCond d kc.1 kc.2)

/-- One revision record of the revision collection: an independent id, the
mutation kind, and the full field snapshot (spec sections 3 and 6). -/
structure RevisionRecord where
  revisionId : String
  kind : String
  snapshot : Doc
deriving Repr, DecidableEq

/-- Modelled from the spec: the datastore collaborator (spec section 6) as
consumed by the model: the live collection's documents, the revision
collection, and a counter from which the revision collection's
independent ids are drawn. -/
structure Datastore where
  docs : List Doc
  revisions : List RevisionRecord
  nextRevId : Nat
deriving Repr, DecidableEq

/-- Modelled from the spec: the datastore's `find` (spec section 6)
returns the documents matching the query. -/
def storageFind (s : Datastore) (q : Query) : List Doc :=
  s.docs.filter (fun d => matchQuery q d)

/-- The `_version` a document carries, read as the datastore's `$inc`
reads it (an absent or non-numeric field counts as 0). -/
def jsVersion (d : Doc) : Int :=
  match jsGet d "_version" with
  | some (DVal.vInt m) => m
  | _ => 0

/-- The `_history` id list a document carries (absent or non-array reads
as empty). -/
def jsHistoryList (d : Doc) : List String :=
  match jsGet d "_history" with
  | some (DVal.vStrList l) => l
  | _ => []

/-- Modelled from the spec: the datastore's `update` applied to one
matching document — `$set` assigns every field of the payload, `$inc`
adds to `_version`. -/
def applyUpdate (setFields : Doc) (inc : Int) (d : Doc) : Doc :=
  objSet (jsAssign d setFields) "_version"
    (DVal.vInt (jsVersion (jsAssign d setFields) + inc))

/-- Modelled from the spec: the datastore's `update` (spec section 6):
every matching document receives the `$set`/`$inc` payload; the second
component is `matchedCount`. -/
def storageUpdate (s : Datastore) (q : Query) (setFields : Doc)
    (inc : Int) : Datastore × Nat :=
  ({ s with
      docs := s.docs.map (fun d =>
        if matchQuery q d then applyUpdate setFields inc d else d) },
    (s.docs.filter (fun d => matchQuery q d)).length)

/-- Modelled from the spec: the datastore's `delete` (spec section 6):
matching documents are removed; the second component is `deletedCount`. -/
def storageDelete (s : Datastore) (q : Query) : Datastore × Nat :=
  ({ s with docs := s.docs.filter (fun d => ¬matchQuery q d) },
    (s.docs.filter (fun d => matchQuery q d)).length)

/-- The revision ids the history tracker draws, in counter order. -/
def revIdFor (n : Nat) : String := "rev" ++ toString n

/-- Appending one revision id to a live document's `_history` list. -/
def pushHistory (d : Doc) (rid : String) : Doc :=
  match jsGet d "_history" with
  | some (DVal.vStrList l) => objSet d "_history" (DVal.vStrList (l ++ [rid]))
  | _ => objSet d "_history" (DVal.vStrList [rid])

/-- Modelled from the spec: one step of `History.createEach`
(`src/dadi/lib/model/history.js` is not part of the provided source; spec
section 4.5): insert one immutable revision record holding the given
snapshot into the revision collection and append the new revision's id to
the live document's `_history` list. -/
def historyCreateOne (s : Datastore) (kind : String) (snap : Doc) :
    Datastore :=
  let rid := revIdFor s.nextRevId
  { docs := s.docs.map (fun d =>
      if jsGet d "_id" == jsGet snap "_id" then pushHistory d rid else d),
    revisions := s.revisions ++ [⟨rid, kind, snap⟩],
    nextRevId := s.nextRevId + 1 }

/-- Modelled from the spec: `History.createEach` over a snapshot list —
one revision record per document (spec section 4.5). -/
def historyCreateEach (s : Datastore) (kind : String)
    (snaps : List Doc) : Datastore :=
  snaps.foldl (fun acc snap => historyCreateOne acc kind snap) s

/-- The revision records `historyCreateEach` appends, starting from a
given counter value. -/
def mkRevisions (startId : Nat) (kind : String) :
    List Doc → List RevisionRecord
  | [] => []
  | snap :: rest => ⟨revIdFor startId, kind, snap⟩ :: mkRevisions (startId + 1) kind rest

/-- The per-document effect of `historyCreateEach`: each snapshot whose
`_id` equals the document's pushes one revision id, in counter order. -/
def pushMatching (n : Nat) (x : Doc) : List Doc → Doc
  | [] => x
  | snap :: rest =>
    pushMatching (n + 1)
      (if jsGet x "_id" == jsGet snap "_id" then pushHistory x (revIdFor n) else x)
      rest

/-- `Model.prototype.formatQuery` (src/dadi/lib/model/index.js:774-790):
when the configured external prefix is not `_`, every key carrying that
prefix is renamed to the internal `_` prefix; all other keys pass
through. -/
def formatQuery (iPrefix : String) (q : Query) : Query :=
  q.map (fun kc =>
    if iPrefix ≠ "_" ∧ jsStartsWith iPrefix kc.1 = true then
      ("_" ++ kc.1.drop 1, kc.2)
    else kc)

/-- Composition of a find's result list, as applied at
src/dadi/lib/model/index.js:681-687: results are composed exactly when
the model's stored compose setting is truthy. -/
def composeResults (modelCompose : Option DVal) (isRefField : String → Bool)
    (composeResolve : DVal → DVal) (results : List Doc) : List Doc :=
  if composeApplied modelCompose then
    results.map (composeStep isRefField composeResolve)
  else results

/-- Errors `Model.prototype.update` reports through its `done` callback. -/
inductive UpdateErr where
  | connection
  | badQuery (errors : List String)
  | validationFailed (errors : List String)
  | notFound
  | composerError (e : String)
  | hookFailure (e : HookErr)
deriving Repr, DecidableEq

/-- Status classification of an update error: 503 for connection loss,
400 for bad query or failed payload validation
(src/dadi/lib/model/index.js:1240-1252), 404 for the ID-addressed
not-found case (lines 1156-1160). -/
def updateErrStatusCode : UpdateErr → Option Nat
  | UpdateErr.connection => some 503
  | UpdateErr.badQuery _ => some 400
  | UpdateErr.validationFailed _ => some 400
  | UpdateErr.notFound => some 404
  | UpdateErr.composerError _ => none
  | UpdateErr.hookFailure _ => none

/-- The collaborators and settings `Model.prototype.update` consults.
`validateQuery`/`validateSchemaPartial` stand for the Validator module,
`createFromComposed` for the Composer's pre-composed pass,
`hooksBeforeUpdate` for `settings.hooks.beforeUpdate`; none of these
modules is part of the provided source.  `histFailure` injects the
outcome of the history write (`none` = the write succeeds).
`modelCompose` is the model's stored compose setting when the call
begins. -/
structure UpdateEnv where
  name : String
  hasDb : Bool
  historyEnabled : Bool
  iPrefix : String
  isRestIDQuery : Bool
  validateQuery : Query → ValidationResult
  validateSchemaPartial : Doc → ValidationResult
  hooksBeforeUpdate : Option (List HookFn)
  createFromComposed : Doc → Except String Unit
  isRefField : String → Bool
  composeResolve : DVal → DVal
  modelCompose : Option DVal
  histFailure : Option String
  bypassOutputFormatting : Bool

deriving instance DecidableEq for Except

/-- What one `update` call leaves behind: the value of the caller's
`done` callback (`none` when `done` is never invoked), the datastore
after the call, and the trace of storage effects. -/
structure UpdateResult where
  outcome : Option (Except UpdateErr (List Doc))
  store : Datastore
  trace : List Eff
deriving Repr, DecidableEq

/-- The pre-image snapshots `update` captures: the result list of its
first `find` (src/dadi/lib/model/index.js:1127-1133), composed according
to the model's current compose setting; `queryUtils.snapshot` is a deep
copy, the identity under value semantics. -/
def updateSnapshots (env : UpdateEnv) (store : Datastore) (fq : Query) :
    List Doc :=
  composeResults env.modelCompose env.isRefField env.composeResolve
    (storageFind store fq)

/-- The merged `$set` payload: DateTime conversion
(`queryUtils.convertDateTimeForSave`, a module not part of the provided
source and not described by the spec, modelled as the identity) followed
by `Object.assign(update, internals)`
(src/dadi/lib/model/index.js:1114-1118).  The `setUpdate` object is built
from this payload at line 1122, before the `beforeUpdate` hooks run, and
is not rebuilt from their results. -/
def updatePayload (update0 : Doc) (internals : Option Doc) : Doc :=
  match internals with
  | some ints => jsAssign update0 ints
  | none => update0

/-- The tail of `Model.prototype.update` from the storage update on
(src/dadi/lib/model/index.js:1149-1209): the datastore update, the
ID-addressed not-found check against `matchedCount`, the history write
(whose failure is logged and stops the chain without calling `done`),
the re-fetch with `compose: true`, the `afterUpdate` hooks, the search
re-index (the spec says update "triggers search re-indexing"; the Search
module is not part of the provided source), and output formatting. -/
def updateCommit (env : UpdateEnv) (store : Datastore) (fq : Query)
    (setFields : Doc) (snaps : List Doc) (trace0 : List Eff) : UpdateResult :=
  let stepped := storageUpdate store fq setFields 1
  let store1 := stepped.1
  let matched := stepped.2
  let trace1 := trace0 ++ [Eff.updateEff env.name setFields 1]
  if env.isRestIDQuery = true ∧ matched = 0 then
    { outcome := some (Except.error UpdateErr.notFound), store := store1,
      trace := trace1 }
  else
    match env.historyEnabled, env.histFailure with
    | true, some _ =>
      { outcome := none, store := store1, trace := trace1 ++ [Eff.logErrorEff] }
    | true, none =>
      let store2 := historyCreateEach store1 "update" snaps
      let trace2 := trace1 ++ [Eff.historyEff snaps "update"]
      let refetchQuery : Query :=
        [("_id", QCond.inList (snaps.map (fun d =>
          match jsGet d "_id" with
          | some (DVal.vStr s) => s
          | _ => "")))]
      let results2 := composeResults (some (DVal.vBool true)) env.isRefField
        env.composeResolve (storageFind store2 refetchQuery)
      let trace3 := trace2 ++ [Eff.findEff env.name]
      if matched = 0 then
        { outcome := some (Except.ok results2), store := store2, trace := trace3 }
      else
        { outcome := some (Except.ok
            (if env.bypassOutputFormatting then results2
             else results2.map (formatResultSetForOutput env.iPrefix))),
          store := store2, trace := trace3 ++ [Eff.searchIndexEff] }
    | false, _ =>
      let refetchQuery : Query :=
        [("_id", QCond.inList (snaps.map (fun d =>
          match jsGet d "_id" with
          | some (DVal.vStr s) => s
          | _ => "")))]
      let results2 := composeResults (some (DVal.vBool true)) env.isRefField
        env.composeResolve (storageFind store1 refetchQuery)
      let trace3 := trace1 ++ [Eff.findEff env.name]
      if matched = 0 then
        { outcome := some (Except.ok results2), store := store1, trace := trace3 }
      else
        { outcome := some (Except.ok
            (if env.bypassOutputFormatting then results2
             else results2.map (formatResultSetForOutput env.iPrefix))),
          store := store1, trace := trace3 ++ [Eff.searchIndexEff] }

/-- `Model.prototype.update` (src/dadi/lib/model/index.js:1077-1238),
linearised.  Order of stages as in the source: connection check, query
validation, partial-schema payload validation, query formatting, payload
assembly, pre-image `find`, `createFromComposed`, the unused
`compose: false` `find` of `startUpdate`, the `beforeUpdate` hook
pipeline (whose transformed payload does not reach the already-built
`setUpdate` object), then `updateCommit`. -/
def updateRun (env : UpdateEnv) (store : Datastore) (q : Query)
    (update0 : Doc) (internals : Option Doc) : UpdateResult :=
  if env.hasDb = false then
    { outcome := some (Except.error UpdateErr.connection), store := store,
      trace := [] }
  else if (env.validateQuery q).success = false then
    { outcome := some (Except.error
        (UpdateErr.badQuery (env.validateQuery q).errors)), store := store,
      trace := [] }
  else if (env.validateSchemaPartial update0).success = false then
    { outcome := some (Except.error
        (UpdateErr.validationFailed (env.validateSchemaPartial update0).errors)),
      store := store, trace := [] }
  else
    let fq := formatQuery env.iPrefix q
    let setFields := updatePayload update0 internals
    let snaps := updateSnapshots env store fq
    match env.createFromComposed setFields with
    | Except.error e =>
      { outcome := some (Except.error (UpdateErr.composerError e)),
        store := store, trace := [Eff.findEff env.name] }
    | Except.ok _ =>
      let trace0 := [Eff.findEff env.name, Eff.findEff env.name]
      match env.hooksBeforeUpdate with
      | some hooks =>
        match hookReduce hooks setFields with
        | Except.error e =>
          { outcome := some (Except.error (UpdateErr.hookFailure e)),
            store := store, trace := trace0 }
        | Except.ok _ => updateCommit env store fq setFields snaps trace0
      | none => updateCommit env store fq setFields snaps trace0

/-- Errors `Model.prototype.delete` reports through its `done` callback. -/
inductive DeleteErr where
  | connection
  | badQuery (errors : List String)
  | notFound
  | hookFailure (e : HookErr)
  | historyFailed (e : String)
deriving Repr, DecidableEq

/-- Status classification of a delete error: 400 for a bad query, 503
for connection loss, 404 for the ID-addressed not-found case
(src/dadi/lib/model/index.js:397-403); hook and history failures carry
no status code of their own. -/
def deleteErrStatusCode : DeleteErr → Option Nat
  | DeleteErr.connection => some 503
  | DeleteErr.badQuery _ => some 400
  | DeleteErr.notFound => some 404
  | DeleteErr.hookFailure _ => none
  | DeleteErr.historyFailed _ => none

/-- The result a successful `delete` reports: the datastore's
`deletedCount` plus `totalCount`, the pre-deletion total minus the
deleted count (src/dadi/lib/model/index.js:379). -/
structure DeleteCounts where
  deletedCount : Nat
  totalCount : Nat
deriving Repr, DecidableEq

/-- The collaborators and settings `Model.prototype.delete` consults;
`hooksBeforeDelete` folds over the query.  As in `UpdateEnv`, the
validator, hook and history modules are not part of the provided source
and enter as parameters; `histFailure` injects the history write's
outcome. -/
structure DeleteEnv where
  name : String
  hasDb : Bool
  historyEnabled : Bool
  iPrefix : String
  isRestIDQuery : Bool
  validateQuery : Query → ValidationResult
  hooksBeforeDelete : Option (List (Query → HookRes Query))
  histFailure : Option String

/-- What one `delete` call leaves behind. -/
structure DeleteResult where
  outcome : Option (Except DeleteErr DeleteCounts)
  store : Datastore
  trace : List Eff
deriving Repr, DecidableEq

/-- The tail of `Model.prototype.delete`: the `beforeDelete` pipeline and
`deleteDocuments` (src/dadi/lib/model/index.js:359-385 and 422-443). -/
def deleteCommit (env : DeleteEnv) (store : Datastore) (fq : Query)
    (allDocs : List Doc) (trace0 : List Eff) (q : Query) : DeleteResult :=
  let hookErr :=
    match env.hooksBeforeDelete with
    | some hooks =>
      match hookReduce hooks q with
      | Except.error e => some e
      | Except.ok _ => none
    | none => none
  match hookErr with
  | some e =>
    { outcome := some (Except.error (DeleteErr.hookFailure e)),
      store := store, trace := trace0 }
  | none =>
    let stepped := storageDelete store fq
    let counts : DeleteCounts :=
      { deletedCount := stepped.2, totalCount := allDocs.length - stepped.2 }
    let trace1 := trace0 ++ [Eff.deleteEff env.name]
    if stepped.2 > 0 then
      { outcome := some (Except.ok counts), store := stepped.1,
        trace := trace1 ++ [Eff.searchDeleteEff] }
    else
      { outcome := some (Except.ok counts), store := stepped.1,
        trace := trace1 }

/-- `Model.prototype.delete` (src/dadi/lib/model/index.js:338-451),
linearised.  Order of stages as in the source: query validation,
connection check, query formatting, the unfiltered `find` (for
`totalCount`), the matching `find` (the documents to delete), the
ID-addressed not-found check, the history write (one delete-kind
revision per matched document; a failure is logged and reported through
`done`), the `beforeDelete` hook pipeline (its transformed query is
discarded: `deleteDocuments` reuses the original query), the datastore
delete, and, when documents were deleted, the search-index removal and
the `afterDelete` hooks. -/
def deleteRun (env : DeleteEnv) (store : Datastore) (q : Query) :
    DeleteResult :=
  if (env.validateQuery q).success = false then
    { outcome := some (Except.error
        (DeleteErr.badQuery (env.validateQuery q).errors)), store := store,
      trace := [] }
  else if env.hasDb = false then
    { outcome := some (Except.error DeleteErr.connection), store := store,
      trace := [] }
  else
    let fq := formatQuery env.iPrefix q
    let allDocs := storageFind store []
    let deletedDocs := storageFind store fq
    let trace0 := [Eff.findEff env.name, Eff.findEff env.name]
    if env.isRestIDQuery = true ∧ deletedDocs = [] then
      { outcome := some (Except.error DeleteErr.notFound), store := store,
        trace := trace0 }
    else
      match env.historyEnabled, deletedDocs, env.histFailure with
      | true, _ :: _, some e =>
        { outcome := some (Except.error (DeleteErr.historyFailed e)),
          store := store, trace := trace0 ++ [Eff.logErrorEff] }
      | true, _ :: _, none =>
        deleteCommit env (historyCreateEach store "delete" deletedDocs) fq
          allDocs (trace0 ++ [Eff.historyEff deletedDocs "delete"]) q
      | true, [], _ => deleteCommit env store fq allDocs trace0 q
      | false, _, _ => deleteCommit env store fq allDocs trace0 q

/-! Lemmas about the update pipeline and the history tracker. -/

theorem updateCommit_ok_shape (env : UpdateEnv) (store : Datastore)
    (fq : Query) (setFields : Doc) (snaps : List Doc) (trace0 : List Eff)
    (res : List Doc) (hhist : env.historyEnabled = true)
    (hout : (updateCommit env store fq setFields snaps trace0).outcome =
      some (Except.ok res)) :
    (updateCommit env store fq setFields snaps trace0).store =
      historyCreateEach (storageUpdate store fq setFields 1).1 "update" snaps ∧
      Eff.updateEff env.name setFields 1 ∈
        (updateCommit env store fq setFields snaps trace0).trace := by
  unfold updateCommit at hout ⊢
  by_cases hrest : env.isRestIDQuery = true ∧ (storageUpdate store fq setFields 1).2 = 0
  · simp only [if_pos hrest] at hout
    simp at hout
  · simp only [if_neg hrest] at hout ⊢
    rw [hhist] at hout ⊢
    cases hfail : env.histFailure with
    | some e => simp [hfail] at hout
    | none =>
      simp only [hfail] at hout ⊢
      by_cases hm : (storageUpdate store fq setFields 1).2 = 0
      · simp only [if_pos hm] at hout ⊢
        constructor <;> simp
      · simp only [if_neg hm] at hout ⊢
        constructor <;> simp

theorem updateRun_ok_shape (env : UpdateEnv) (store : Datastore) (q : Query)
    (update0 : Doc) (internals : Option Doc) (res : List Doc)
    (hhist : env.historyEnabled = true)
    (hout : (updateRun env store q update0 internals).outcome =
      some (Except.ok res)) :
    (updateRun env store q update0 internals).store =
      historyCreateEach
        (storageUpdate store (formatQuery env.iPrefix q)
          (updatePayload update0 internals) 1).1
        "update" (updateSnapshots env store (formatQuery env.iPrefix q)) ∧
      Eff.updateEff env.name (updatePayload update0 internals) 1 ∈
        (updateRun env store q update0 internals).trace := by
  unfold updateRun at hout
  by_cases hdb : env.hasDb = false
  · rw [if_pos hdb] at hout
    simp at hout
  · rw [if_neg hdb] at hout
    by_cases hvq : (env.validateQuery q).success = false
    · rw [if_pos hvq] at hout
      simp at hout
    · rw [if_neg hvq] at hout
      by_cases hvs : (env.validateSchemaPartial update0).success = false
      · rw [if_pos hvs] at hout
        simp at hout
      · rw [if_neg hvs] at hout
        simp only at hout
        cases hcfc : env.createFromComposed (updatePayload update0 internals) with
        | error e => simp [hcfc] at hout
        | ok u =>
          simp only [hcfc] at hout
          cases hhk : env.hooksBeforeUpdate with
          | some hooks =>
            simp only [hhk] at hout
            cases hred : hookReduce hooks (updatePayload update0 internals) with
            | error e => simp [hred] at hout
            | ok w =>
              simp only [hred] at hout
              have heq : updateRun env store q update0 internals =
                  updateCommit env store (formatQuery env.iPrefix q)
                    (updatePayload update0 internals)
                    (updateSnapshots env store (formatQuery env.iPrefix q))
                    [Eff.findEff env.name, Eff.findEff env.name] := by
                simp [updateRun, hdb, hvq, hvs, hcfc, hhk, hred]
              rw [heq]
              exact updateCommit_ok_shape env store _ _ _ _ res hhist hout
          | none =>
            simp only [hhk] at hout
            have heq : updateRun env store q update0 internals =
                updateCommit env store (formatQuery env.iPrefix q)
                  (updatePayload update0 internals)
                  (updateSnapshots env store (formatQuery env.iPrefix q))
                  [Eff.findEff env.name, Eff.findEff env.name] := by
              simp [updateRun, hdb, hvq, hvs, hcfc, hhk]
            rw [heq]
            exact updateCommit_ok_shape env store _ _ _ _ res hhist hout

theorem historyCreateEach_revisions (s : Datastore) (kind : String)
    (snaps : List Doc) :
    (historyCreateEach s kind snaps).revisions =
      s.revisions ++ mkRevisions s.nextRevId kind snaps := by
  induction snaps generalizing s with
  | nil => simp [historyCreateEach, mkRevisions]
  | cons snap rest ih =>
    simp only [historyCreateEach, List.foldl_cons] at ih ⊢
    rw [ih]
    simp [historyCreateOne, mkRevisions, List.append_assoc]

theorem mkRevisions_snapshots (startId : Nat) (kind : String)
    (snaps : List Doc) :
    (mkRevisions startId kind snaps).map RevisionRecord.snapshot = snaps := by
  induction snaps generalizing startId with
  | nil => rfl
  | cons snap rest ih =>
    simp only [mkRevisions, List.map_cons, ih]

theorem mkRevisions_length (startId : Nat) (kind : String)
    (snaps : List Doc) :
    (mkRevisions startId kind snaps).length = snaps.length := by
  induction snaps generalizing startId with
  | nil => rfl
  | cons snap rest ih => simp [mkRevisions, ih]

theorem historyCreateEach_docs (s : Datastore) (kind : String)
    (snaps : List Doc) :
    (historyCreateEach s kind snaps).docs =
      s.docs.map (fun x => pushMatching s.nextRevId x snaps) := by
  induction snaps generalizing s with
  | nil => simp [historyCreateEach, pushMatching]
  | cons snap rest ih =>
    simp only [historyCreateEach, List.foldl_cons] at ih ⊢
    rw [ih]
    simp only [historyCreateOne, List.map_map]
    rfl

theorem jsGet_pushHistory_other (x : Doc) (rid : String) (k : String)
    (hk : k ≠ "_history") :
    jsGet (pushHistory x rid) k = jsGet x k := by
  unfold pushHistory
  cases hv : jsGet x "_history" with
  | none => exact jsGet_objSet_other x "_history" k _ hk
  | some v =>
    cases v with
    | vStrList l => exact jsGet_objSet_other x "_history" k _ hk
    | vNull => exact jsGet_objSet_other x "_history" k _ hk
    | vBool b => exact jsGet_objSet_other x "_history" k _ hk
    | vInt n => exact jsGet_objSet_other x "_history" k _ hk
    | vStr s2 => exact jsGet_objSet_other x "_history" k _ hk

theorem jsHistoryList_pushHistory (x : Doc) (rid : String) :
    jsHistoryList (pushHistory x rid) = jsHistoryList x ++ [rid] := by
  unfold pushHistory jsHistoryList
  cases hv : jsGet x "_history" with
  | none => simp [jsGet_objSet_self]
  | some v =>
    cases v with
    | vStrList l => simp [jsGet_objSet_self]
    | vNull => simp [jsGet_objSet_self]
    | vBool b => simp [jsGet_objSet_self]
    | vInt n => simp [jsGet_objSet_self]
    | vStr s2 => simp [jsGet_objSet_self]

theorem pushMatching_no_match (n : Nat) (x : Doc) (snaps : List Doc)
    (h : ∀ snap ∈ snaps, (jsGet x "_id" == jsGet snap "_id") = false) :
    pushMatching n x snaps = x := by
  induction snaps generalizing n with
  | nil => rfl
  | cons snap rest ih =>
    simp only [pushMatching, h snap (List.mem_cons_self snap rest),
      Bool.false_eq_true, if_false]
    exact ih n.succ (fun s hs => h s (List.mem_cons_of_mem snap hs))

theorem pushMatching_one (x : Doc) (l1 l2 : List Doc) (snap0 : Doc)
    (hid : "_id" ≠ "_history")
    (h1 : ∀ snap ∈ l1, (jsGet x "_id" == jsGet snap "_id") = false)
    (h0 : (jsGet x "_id" == jsGet snap0 "_id") = true)
    (h2 : ∀ snap ∈ l2, (jsGet x "_id" == jsGet snap "_id") = false) :
    ∀ n, pushMatching n x (l1 ++ snap0 :: l2) =
      pushHistory x (revIdFor (n + l1.length)) := by
  induction l1 generalizing x with
  | nil =>
    intro n
    simp only [List.nil_append, pushMatching, h0, if_true]
    have hpush : ∀ snap ∈ l2,
        (jsGet (pushHistory x (revIdFor n)) "_id" == jsGet snap "_id") = false := by
      intro snap hs
      rw [jsGet_pushHistory_other x _ "_id" hid]
      exact h2 snap hs
    rw [pushMatching_no_match (n + 1) _ l2 hpush]
    simp
  | cons snap1 rest ih =>
    intro n
    simp only [List.cons_append, pushMatching,
      h1 snap1 (List.mem_cons_self snap1 rest), Bool.false_eq_true, if_false]
    rw [show rest.append (snap0 :: l2) = rest ++ snap0 :: l2 from rfl,
      ih x (fun s hs => h1 s (List.mem_cons_of_mem snap1 hs)) h0 h2 (n + 1)]
    have harith : n + 1 + rest.length = n + (rest.length + 1) := by omega
    simp [harith]

theorem applyUpdate_version (setFields : Doc) (d : Doc)
    (hV : "_version" ∉ docKeys setFields) :
    jsGet (applyUpdate setFields 1 d) "_version" =
      some (DVal.vInt (jsVersion d + 1)) := by
  unfold applyUpdate
  rw [jsGet_objSet_self]
  have hv : jsVersion (jsAssign d setFields) = jsVersion d := by
    unfold jsVersion
    rw [jsGet_jsAssign_not_mem d setFields "_version" hV]
  rw [hv]

theorem applyUpdate_other (setFields : Doc) (d : Doc) (k : String)
    (hk : k ≠ "_version") (hmem : k ∉ docKeys setFields) :
    jsGet (applyUpdate setFields 1 d) k = jsGet d k := by
  unfold applyUpdate
  rw [jsGet_objSet_other _ "_version" k _ hk,
    jsGet_jsAssign_not_mem d setFields k hmem]

theorem composeResults_eq_map (mc : Option DVal) (isR : String → Bool)
    (cr : DVal → DVal) (res : List Doc) :
    composeResults mc isR cr res =
      res.map (fun d => if composeApplied mc then composeStep isR cr d else d) := by
  unfold composeResults
  cases composeApplied mc with
  | true => simp
  | false => simp

/-- C1.  For every successful `update` call on a collection with
revisioning enabled: the storage update is issued with the `$inc`
`_version: 1` clause, every matched document's stored `_version` rises by
exactly 1 and its `_history` gains exactly one new revision id, and the
revision collection is extended by exactly one record per captured
pre-image, whose snapshot is exactly the document state the first `find`
captured before the update was applied.  Stated for well-formed stores
(pairwise distinct `_id`s) and validated payloads, which do not write the
internal `_id`/`_version`/`_history` fields, over schemas in which `_id`
is not a reference field. -/
theorem update_increments_version_and_appends_revision
    (env : UpdateEnv) (store : Datastore) (q : Query) (update0 : Doc)
    (internals : Option Doc) (res : List Doc)
    (hout : (updateRun env store q update0 internals).outcome =
      some (Except.ok res))
    (hhist : env.historyEnabled = true)
    (hsetV : "_version" ∉ docKeys (updatePayload update0 internals))
    (hsetH : "_history" ∉ docKeys (updatePayload update0 internals))
    (hsetI : "_id" ∉ docKeys (updatePayload update0 internals))
    (hrefI : env.isRefField "_id" = false)
    (hids : (store.docs.map (fun d => jsGet d "_id")).Nodup) :
    (updateRun env store q update0 internals).store.revisions =
        store.revisions ++ mkRevisions store.nextRevId "update"
          (updateSnapshots env store (formatQuery env.iPrefix q)) ∧
      (mkRevisions store.nextRevId "update"
          (updateSnapshots env store (formatQuery env.iPrefix q))).map
          RevisionRecord.snapshot =
        updateSnapshots env store (formatQuery env.iPrefix q) ∧
      Eff.updateEff env.name (updatePayload update0 internals) 1 ∈
        (updateRun env store q update0 internals).trace ∧
      ∀ d ∈ store.docs, matchQuery (formatQuery env.iPrefix q) d = true →
        ∃ rid, ∃ d2 ∈ (updateRun env store q update0 internals).store.docs,
          jsGet d2 "_id" = jsGet d "_id" ∧
            jsGet d2 "_version" = some (DVal.vInt (jsVersion d + 1)) ∧
            jsHistoryList d2 = jsHistoryList d ++ [rid] := by
  obtain ⟨hstore, htrace⟩ :=
    updateRun_ok_shape env store q update0 internals res hhist hout
  refine ⟨?_, mkRevisions_snapshots _ _ _, htrace, ?_⟩
  · rw [hstore, historyCreateEach_revisions]
    rfl
  · intro d hd hmatch
    have hidne : ("_id" : String) ≠ "_history" := by decide
    have hidnv : ("_id" : String) ≠ "_version" := by decide
    have hhnv : ("_history" : String) ≠ "_version" := by decide
    set fq := formatQuery env.iPrefix q with hfq
    set setF := updatePayload update0 internals with hsetF
    set cFun := fun x : Doc =>
      if composeApplied env.modelCompose then
        composeStep env.isRefField env.composeResolve x
      else x with hcFun
    have hsnaps : updateSnapshots env store fq =
        (storageFind store fq).map cFun := by
      unfold updateSnapshots
      rw [composeResults_eq_map]
    have hcid : ∀ x : Doc, jsGet (cFun x) "_id" = jsGet x "_id" := by
      intro x
      rw [hcFun]
      cases hca : composeApplied env.modelCompose with
      | true =>
        simp only [if_pos rfl, hca, if_true]
        exact jsGet_composeStep_not_ref _ _ x "_id" hrefI
      | false => simp [hca]
    -- the updated version of d
    have hmem_filter : d ∈ storageFind store fq :=
      List.mem_filter.mpr ⟨hd, hmatch⟩
    obtain ⟨f1, f2, hF⟩ := List.append_of_mem hmem_filter
    -- id facts from the nodup hypothesis
    have hFsub : (storageFind store fq).Sublist store.docs :=
      List.filter_sublist store.docs
    have hFids : ((storageFind store fq).map (fun x => jsGet x "_id")).Nodup :=
      (hFsub.map (fun x => jsGet x "_id")).nodup hids
    rw [hF] at hFids
    simp only [List.map_append, List.map_cons] at hFids
    rw [List.nodup_append] at hFids
    obtain ⟨hnd1, hnd2, hdisj⟩ := hFids
    have hne1 : ∀ x ∈ f1, jsGet x "_id" ≠ jsGet d "_id" := by
      intro x hx heq
      exact hdisj (List.mem_map_of_mem (fun x => jsGet x "_id") hx)
        (by
          show jsGet x "_id" ∈ _
          rw [heq]
          exact List.mem_cons_self _ _)
    have hne2 : ∀ x ∈ f2, jsGet d "_id" ≠ jsGet x "_id" := by
      intro x hx heq
      exact (List.nodup_cons.mp hnd2).1 (heq ▸ List.mem_map_of_mem _ hx)
    -- the document after the datastore update
    have hu_id : jsGet (applyUpdate setF 1 d) "_id" = jsGet d "_id" :=
      applyUpdate_other setF d "_id" hidnv hsetI
    have hu_hist : jsGet (applyUpdate setF 1 d) "_history" =
        jsGet d "_history" :=
      applyUpdate_other setF d "_history" hhnv hsetH
    -- decompose the snapshots around d
    have hsnapsplit : updateSnapshots env store fq =
        f1.map cFun ++ cFun d :: f2.map cFun := by
      rw [hsnaps, hF]
      simp
    -- beq facts for pushMatching_one
    have h0 : (jsGet (applyUpdate setF 1 d) "_id" ==
        jsGet (cFun d) "_id") = true := by
      rw [hu_id, hcid d]
      simp
    have h1 : ∀ snap ∈ f1.map cFun,
        (jsGet (applyUpdate setF 1 d) "_id" == jsGet snap "_id") = false := by
      intro snap hsnap
      obtain ⟨x, hx, rfl⟩ := List.mem_map.mp hsnap
      rw [hu_id, hcid x]
      simp only [beq_eq_false_iff_ne, ne_eq]
      exact fun heq => hne1 x hx (heq ▸ rfl)
    have h2 : ∀ snap ∈ f2.map cFun,
        (jsGet (applyUpdate setF 1 d) "_id" == jsGet snap "_id") = false := by
      intro snap hsnap
      obtain ⟨x, hx, rfl⟩ := List.mem_map.mp hsnap
      rw [hu_id, hcid x]
      simp only [beq_eq_false_iff_ne, ne_eq]
      exact hne2 x hx
    -- the final form of the document
    refine ⟨revIdFor (store.nextRevId + (f1.map cFun).length), ?_⟩
    refine ⟨pushHistory (applyUpdate setF 1 d)
      (revIdFor (store.nextRevId + (f1.map cFun).length)), ?_, ?_, ?_, ?_⟩
    · rw [hstore, historyCreateEach_docs]
      have hdocs1 : (storageUpdate store fq setF 1).1.docs =
          store.docs.map (fun x =>
            if matchQuery fq x then applyUpdate setF 1 x else x) := rfl
      have hnext : (storageUpdate store fq setF 1).1.nextRevId =
          store.nextRevId := rfl
      rw [hdocs1, hnext, List.map_map]
      have hval : (fun x => pushMatching store.nextRevId x
            (updateSnapshots env store fq)) ∘
          (fun x => if matchQuery fq x then applyUpdate setF 1 x else x) =
          fun x => pushMatching store.nextRevId
            (if matchQuery fq x then applyUpdate setF 1 x else x)
            (updateSnapshots env store fq) := rfl
      rw [hval]
      have hcalc : pushMatching store.nextRevId
          (if matchQuery fq d then applyUpdate setF 1 d else d)
          (updateSnapshots env store fq) =
          pushHistory (applyUpdate setF 1 d)
            (revIdFor (store.nextRevId + (f1.map cFun).length)) := by
        rw [if_pos hmatch, hsnapsplit]
        exact pushMatching_one (applyUpdate setF 1 d) (f1.map cFun)
          (f2.map cFun) (cFun d) hidne h1 h0 h2 store.nextRevId
      rw [← hcalc]
      exact List.mem_map_of_mem _ hd
    · rw [jsGet_pushHistory_other _ _ "_id" hidne]
      exact hu_id
    · rw [jsGet_pushHistory_other _ _ "_version"
        (by decide : ("_version" : String) ≠ "_history")]
      exact applyUpdate_version setF d hsetV
    · rw [jsHistoryList_pushHistory]
      have : jsHistoryList (applyUpdate setF 1 d) = jsHistoryList d := by
        unfold jsHistoryList
        rw [hu_hist]
      rw [this]

/-- A concrete update environment for witnesses: revisioning on, no
hooks, no reference fields, an ID-addressed request. -/
def uEnvW : UpdateEnv where
  name := "test-schema"
  hasDb := true
  historyEnabled := true
  iPrefix := "_"
  isRestIDQuery := true
  validateQuery := fun _ => ⟨true, []⟩
  validateSchemaPartial := fun _ => ⟨true, []⟩
  hooksBeforeUpdate := none
  createFromComposed := fun _ => Except.ok ()
  isRefField := fun _ => false
  composeResolve := fun v => v
  modelCompose := none
  histFailure := none
  bypassOutputFormatting := false

/-- The stored document of the witness scenario: `_version = 3` with an
empty history. -/
def docW : Doc :=
  [("_id", DVal.vStr "x"), ("_version", DVal.vInt 3),
    ("_history", DVal.vStrList []), ("name", DVal.vStr "old")]

/-- The witness datastore holding `docW` alone. -/
def storeW : Datastore := ⟨[docW], [], 0⟩

/-- Witness for C1 at the spec's scenario: updating a `_version = 3`
document appends one revision snapshotting the pre-update state and
yields a stored `_version = 4` document with one new history id. -/
theorem update_increments_version_and_appends_revision_witness :
    (updateRun uEnvW storeW [("_id", QCond.eqVal (DVal.vStr "x"))]
          [("name", DVal.vStr "Animal Farm")] none).store.revisions =
        storeW.revisions ++ mkRevisions storeW.nextRevId "update"
          (updateSnapshots uEnvW storeW
            (formatQuery uEnvW.iPrefix [("_id", QCond.eqVal (DVal.vStr "x"))])) ∧
      (∃ rid, ∃ d2 ∈ (updateRun uEnvW storeW
            [("_id", QCond.eqVal (DVal.vStr "x"))]
            [("name", DVal.vStr "Animal Farm")] none).store.docs,
          jsGet d2 "_id" = jsGet docW "_id" ∧
            jsGet d2 "_version" = some (DVal.vInt (jsVersion docW + 1)) ∧
            jsHistoryList d2 = jsHistoryList docW ++ [rid]) :=
  have happ := update_increments_version_and_appends_revision uEnvW storeW
    [("_id", QCond.eqVal (DVal.vStr "x"))] [("name", DVal.vStr "Animal Farm")]
    none
    [[("_history", DVal.vStrList ["rev0"]), ("_id", DVal.vStr "x"),
      ("_version", DVal.vInt 4), ("name", DVal.vStr "Animal Farm")]]
    (by decide) rfl (by decide) (by decide) (by decide) rfl (by decide)
  ⟨happ.1, happ.2.2.2 docW (by decide) (by decide)⟩

theorem storageUpdate_no_match (store : Datastore) (fq : Query)
    (setFields : Doc) (h : storageFind store fq = []) :
    (storageUpdate store fq setFields 1).1 = store ∧
      (storageUpdate store fq setFields 1).2 = 0 := by
  have hall : ∀ d ∈ store.docs, matchQuery fq d = false := by
    intro d hd
    by_contra hcon
    have hmem : d ∈ storageFind store fq := by
      apply List.mem_filter.mpr
      refine ⟨hd, ?_⟩
      cases hb : matchQuery fq d with
      | true => rfl
      | false => exact absurd hb hcon
    rw [h] at hmem
    exact List.not_mem_nil d hmem
  constructor
  · show ({ store with docs := store.docs.map (fun d =>
      if matchQuery fq d then applyUpdate setFields 1 d else d) } : Datastore) = store
    have hmap : store.docs.map (fun d =>
        if matchQuery fq d then applyUpdate setFields 1 d else d) = store.docs := by
      have := List.map_congr_left (l := store.docs)
        (f := fun d => if matchQuery fq d then applyUpdate setFields 1 d else d)
        (g := id) (fun a ha => by simp [hall a ha])
      simpa using this
    rw [hmap]
  · show (store.docs.filter (fun d => matchQuery fq d)).length = 0
    have : storageFind store fq = store.docs.filter (fun d => matchQuery fq d) := rfl
    rw [← this, h]
    rfl

/-- C4, counterexample.  An ID-addressed `update` whose query matches no
document does report 404, but only after the mutating storage update
command has been issued: the trace already contains a mutating effect
when the not-found error is detected from `matchedCount`. -/
theorem notfound_detection_counterexample :
    (updateRun uEnvW ⟨[], [], 0⟩ [("_id", QCond.eqVal (DVal.vStr "missing"))]
          [("name", DVal.vStr "y")] none).outcome =
        some (Except.error UpdateErr.notFound) ∧
      ((updateRun uEnvW ⟨[], [], 0⟩ [("_id", QCond.eqVal (DVal.vStr "missing"))]
          [("name", DVal.vStr "y")] none).trace.any mutatingEff) = true := by
  constructor <;> decide

/-- C4, amended.  An ID-addressed `delete` whose query matches no
document returns 404 before any mutating storage I/O and writes zero
revisions.  An ID-addressed `update` whose query matches no document also
returns 404 and writes zero revisions, but its not-found condition is
detected from the `matchedCount` of the storage update command, which has
already been issued by then (matching zero documents, it leaves the store
unchanged). -/
theorem id_addressed_notfound (denv : DeleteEnv) (uenv : UpdateEnv)
    (store : Datastore) (qd qu : Query) (upd : Doc) (internals : Option Doc)
    (hdv : (denv.validateQuery qd).success = true)
    (hddb : denv.hasDb = true)
    (hdrest : denv.isRestIDQuery = true)
    (hdempty : storageFind store (formatQuery denv.iPrefix qd) = [])
    (huv : (uenv.validateQuery qu).success = true)
    (huvs : (uenv.validateSchemaPartial upd).success = true)
    (hudb : uenv.hasDb = true)
    (hurest : uenv.isRestIDQuery = true)
    (huempty : storageFind store (formatQuery uenv.iPrefix qu) = [])
    (hucfc : uenv.createFromComposed (updatePayload upd internals) =
      Except.ok ())
    (huhooks : uenv.hooksBeforeUpdate = none) :
    ((deleteRun denv store qd).outcome =
        some (Except.error DeleteErr.notFound) ∧
      deleteErrStatusCode DeleteErr.notFound = some 404 ∧
      (deleteRun denv store qd).trace.all (fun e => mutatingEff e = false) ∧
      (deleteRun denv store qd).store = store) ∧
    ((updateRun uenv store qu upd internals).outcome =
        some (Except.error UpdateErr.notFound) ∧
      updateErrStatusCode UpdateErr.notFound = some 404 ∧
      (updateRun uenv store qu upd internals).trace =
        [Eff.findEff uenv.name, Eff.findEff uenv.name,
          Eff.updateEff uenv.name (updatePayload upd internals) 1] ∧
      (updateRun uenv store qu upd internals).store = store) := by
  have hdvne : ¬(denv.validateQuery qd).success = false := by simp [hdv]
  have hddbne : ¬denv.hasDb = false := by simp [hddb]
  have huvne : ¬(uenv.validateQuery qu).success = false := by simp [huv]
  have huvsne : ¬(uenv.validateSchemaPartial upd).success = false := by
    simp [huvs]
  have hudbne : ¬uenv.hasDb = false := by simp [hudb]
  obtain ⟨hustore, humatched⟩ := storageUpdate_no_match store
    (formatQuery uenv.iPrefix qu) (updatePayload upd internals) huempty
  constructor
  · refine ⟨?_, rfl, ?_, ?_⟩ <;>
      simp [deleteRun, hdvne, hddbne, hdrest, hdempty, mutatingEff]
  · have hcommit : updateRun uenv store qu upd internals =
        updateCommit uenv store (formatQuery uenv.iPrefix qu)
          (updatePayload upd internals)
          (updateSnapshots uenv store (formatQuery uenv.iPrefix qu))
          [Eff.findEff uenv.name, Eff.findEff uenv.name] := by
      simp [updateRun, hudbne, huvne, huvsne, hucfc, huhooks]
    rw [hcommit]
    unfold updateCommit
    rw [if_pos ⟨hurest, humatched⟩]
    exact ⟨rfl, rfl, rfl, by rw [hustore]⟩

/-- Witness for the amended C4 theorem at concrete ID-addressed delete
and update calls on an empty store. -/
theorem id_addressed_notfound_witness :
    ((deleteRun ⟨"test-schema", true, true, "_", true, fun _ => ⟨true, []⟩,
          none, none⟩ ⟨[], [], 0⟩
          [("_id", QCond.eqVal (DVal.vStr "z"))]).outcome =
        some (Except.error DeleteErr.notFound) ∧
      deleteErrStatusCode DeleteErr.notFound = some 404 ∧
      (deleteRun ⟨"test-schema", true, true, "_", true, fun _ => ⟨true, []⟩,
          none, none⟩ ⟨[], [], 0⟩
          [("_id", QCond.eqVal (DVal.vStr "z"))]).trace.all
        (fun e => mutatingEff e = false) ∧
      (deleteRun ⟨"test-schema", true, true, "_", true, fun _ => ⟨true, []⟩,
          none, none⟩ ⟨[], [], 0⟩
          [("_id", QCond.eqVal (DVal.vStr "z"))]).store = ⟨[], [], 0⟩) ∧
    ((updateRun uEnvW ⟨[], [], 0⟩ [("_id", QCond.eqVal (DVal.vStr "z"))]
          [("name", DVal.vStr "y")] none).outcome =
        some (Except.error UpdateErr.notFound) ∧
      updateErrStatusCode UpdateErr.notFound = some 404 ∧
      (updateRun uEnvW ⟨[], [], 0⟩ [("_id", QCond.eqVal (DVal.vStr "z"))]
          [("name", DVal.vStr "y")] none).trace =
        [Eff.findEff uEnvW.name, Eff.findEff uEnvW.name,
          Eff.updateEff uEnvW.name
            (updatePayload [("name", DVal.vStr "y")] none) 1] ∧
      (updateRun uEnvW ⟨[], [], 0⟩ [("_id", QCond.eqVal (DVal.vStr "z"))]
          [("name", DVal.vStr "y")] none).store = ⟨[], [], 0⟩) :=
  id_addressed_notfound
    ⟨"test-schema", true, true, "_", true, fun _ => ⟨true, []⟩, none, none⟩
    uEnvW ⟨[], [], 0⟩ [("_id", QCond.eqVal (DVal.vStr "z"))]
    [("_id", QCond.eqVal (DVal.vStr "z"))] [("name", DVal.vStr "y")] none
    rfl rfl rfl (by decide) rfl rfl rfl rfl (by decide) rfl rfl

/-- The witness update environment with an injected history-write
failure and a non-ID-addressed request. -/
def uEnvHF : UpdateEnv :=
  { uEnvW with isRestIDQuery := false, histFailure := some "disk full" }

/-- C6, counterexample.  When the history-revision write fails during an
`update`, the failure is logged but the caller's callback never receives
the error — `done` is never invoked (the promise chain's catch only
logs), so the operation is left unreported. -/
theorem history_failure_counterexample :
    (updateRun uEnvHF storeW [("_id", QCond.eqVal (DVal.vStr "x"))]
          [("name", DVal.vStr "y")] none).outcome = none ∧
      Eff.logErrorEff ∈ (updateRun uEnvHF storeW
          [("_id", QCond.eqVal (DVal.vStr "x"))]
          [("name", DVal.vStr "y")] none).trace := by
  constructor <;> decide

/-- C6, amended.  A failing history-revision write is logged on both
mutation paths, but it surfaces as the operation's overall error only for
`delete`, whose catch passes the error to the caller's callback; for
`update` the catch only logs, the callback is never invoked, and the
operation is left unreported. -/
theorem history_failure_surfacing (denv : DeleteEnv) (uenv : UpdateEnv)
    (store : Datastore) (qd qu : Query) (upd : Doc)
    (internals : Option Doc) (e1 e2 : String)
    (hdv : (denv.validateQuery qd).success = true)
    (hddb : denv.hasDb = true)
    (hdhist : denv.historyEnabled = true)
    (hdfail : denv.histFailure = some e1)
    (hdnonempty : storageFind store (formatQuery denv.iPrefix qd) ≠ [])
    (huv : (uenv.validateQuery qu).success = true)
    (huvs : (uenv.validateSchemaPartial upd).success = true)
    (hudb : uenv.hasDb = true)
    (huhist : uenv.historyEnabled = true)
    (hufail : uenv.histFailure = some e2)
    (hucfc : uenv.createFromComposed (updatePayload upd internals) =
      Except.ok ())
    (huhooks : uenv.hooksBeforeUpdate = none)
    (hunotrest : ¬(uenv.isRestIDQuery = true ∧
      (storageUpdate store (formatQuery uenv.iPrefix qu)
        (updatePayload upd internals) 1).2 = 0)) :
    ((deleteRun denv store qd).outcome =
        some (Except.error (DeleteErr.historyFailed e1)) ∧
      Eff.logErrorEff ∈ (deleteRun denv store qd).trace) ∧
    ((updateRun uenv store qu upd internals).outcome = none ∧
      Eff.logErrorEff ∈ (updateRun uenv store qu upd internals).trace) := by
  have hdvne : ¬(denv.validateQuery qd).success = false := by simp [hdv]
  have hddbne : ¬denv.hasDb = false := by simp [hddb]
  have huvne : ¬(uenv.validateQuery qu).success = false := by simp [huv]
  have huvsne : ¬(uenv.validateSchemaPartial upd).success = false := by
    simp [huvs]
  have hudbne : ¬uenv.hasDb = false := by simp [hudb]
  obtain ⟨dd, rest, hcons⟩ :=
    List.exists_cons_of_ne_nil hdnonempty
  constructor
  · have hnotrest : ¬(denv.isRestIDQuery = true ∧
        storageFind store (formatQuery denv.iPrefix qd) = []) := by
      intro hcon
      exact hdnonempty hcon.2
    constructor <;>
      simp [deleteRun, hdvne, hddbne, hnotrest, hcons, hdhist, hdfail]
  · have hcommit : updateRun uenv store qu upd internals =
        updateCommit uenv store (formatQuery uenv.iPrefix qu)
          (updatePayload upd internals)
          (updateSnapshots uenv store (formatQuery uenv.iPrefix qu))
          [Eff.findEff uenv.name, Eff.findEff uenv.name] := by
      simp [updateRun, hudbne, huvne, huvsne, hucfc, huhooks]
    rw [hcommit]
    unfold updateCommit
    rw [if_neg hunotrest, huhist, hufail]
    exact ⟨rfl, by simp⟩

/-- Witness for the amended C6 theorem: a failing history write on a
one-document store surfaces through `done` for delete and is only logged
for update. -/
theorem history_failure_surfacing_witness :
    ((deleteRun ⟨"test-schema", true, true, "_", false, fun _ => ⟨true, []⟩,
          none, some "disk full"⟩ storeW
          [("_id", QCond.eqVal (DVal.vStr "x"))]).outcome =
        some (Except.error (DeleteErr.historyFailed "disk full")) ∧
      Eff.logErrorEff ∈ (deleteRun ⟨"test-schema", true, true, "_", false,
          fun _ => ⟨true, []⟩, none, some "disk full"⟩ storeW
          [("_id", QCond.eqVal (DVal.vStr "x"))]).trace) ∧
    ((updateRun uEnvHF storeW [("_id", QCond.eqVal (DVal.vStr "x"))]
          [("name", DVal.vStr "y")] none).outcome = none ∧
      Eff.logErrorEff ∈ (updateRun uEnvHF storeW
          [("_id", QCond.eqVal (DVal.vStr "x"))]
          [("name", DVal.vStr "y")] none).trace) :=
  history_failure_surfacing
    ⟨"test-schema", true, true, "_", false, fun _ => ⟨true, []⟩, none,
      some "disk full"⟩
    uEnvHF storeW [("_id", QCond.eqVal (DVal.vStr "x"))]
    [("_id", QCond.eqVal (DVal.vStr "x"))] [("name", DVal.vStr "y")] none
    "disk full" "disk full" rfl rfl rfl rfl (by decide) rfl rfl rfl rfl rfl
    (by decide) rfl (by decide)

/-- A handler resolving with an explicit `null`. -/
def nullHook : HookFn := fun _ => HookRes.nullValue

/-- A handler resolving with its input unchanged. -/
def idHook : HookFn := fun d => HookRes.value d

/-- A create environment whose `beforeCreate` pipeline starts with a
handler that resolves with an explicit `null`, followed by a second,
identity handler. -/
def envHookNull : CreateEnv :=
  { witnessEnv with hooksBeforeCreate := some [nullHook, idHook] }

/-- C5, counterexample.  A `beforeCreate` handler resolving with `null`
does not let the pipeline continue: on a valid one-document batch the
operation reports a hook-failure response (the `{}` error object) and the
storage insert never executes, although a further handler was
configured. -/
theorem hook_null_counterexample :
    (createRun envHookNull [[("name", DVal.vStr "1984")]] none).1 =
        CreateOutcome.failed (CreateErr.hookFailure HookErr.emptyObject) ∧
      (createRun envHookNull [[("name", DVal.vStr "1984")]] none).2 = [] := by
  constructor <;> decide

/-- C5, amended.  A hook handler returning an explicit `null` aborts the
pipeline with the empty error object the code passes to the reduce
callback: the remaining handlers never run, and the protected operation
(here, create's storage insert) does not execute; the caller receives a
hook-failure response instead. -/
theorem hook_null_aborts (env : CreateEnv) (documents : List Doc)
    (internals : Option Doc) (h : HookFn) (hs : List HookFn)
    (hdb : env.hasDb = true)
    (hval : ∃ v, createValidate env.validateSchema documents = some v ∧
      v.success = true)
    (hcfc : ∀ d, env.createFromComposed d = Except.ok ())
    (hdocs : documents ≠ [])
    (hhooks : env.hooksBeforeCreate = some (h :: hs))
    (hnull : ∀ d, h d = HookRes.nullValue) :
    (∀ d, hookReduce (h :: hs) d = Except.error HookErr.emptyObject) ∧
      (createRun env documents internals).1 =
        CreateOutcome.failed (CreateErr.hookFailure HookErr.emptyObject) ∧
      (createRun env documents internals).2 = [] := by
  have habort : ∀ d, hookReduce (h :: hs) d =
      Except.error HookErr.emptyObject := by
    intro d
    simp [hookReduce, hnull d]
  obtain ⟨v, hv, hvs⟩ := hval
  have hdbne : ¬env.hasDb = false := by simp [hdb]
  have hvsne : ¬v.success = false := by simp [hvs]
  have hdocsne : prepareCreateDocs env documents internals ≠ [] := by
    unfold prepareCreateDocs
    cases hrev : env.storeRevisions <;> cases hints : internals <;>
      simp [hdocs]
  have hcfcnone : createCfcFirstErr env
      (prepareCreateDocs env documents internals) = none := by
    unfold createCfcFirstErr
    apply List.findSome?_eq_none_iff.mpr
    intro d hd
    rw [hcfc d]
  have hlast : createLastCfcOk env
      (prepareCreateDocs env documents internals) = true := by
    unfold createLastCfcOk
    cases hg : (prepareCreateDocs env documents internals).getLast? with
    | none => exact absurd (List.getLast?_eq_none_iff.mp hg) hdocsne
    | some dl => simp [hg, hcfc dl]
  have hch : createHookErr (h :: hs)
      (prepareCreateDocs env documents internals) =
      some HookErr.emptyObject := by
    unfold createHookErr
    have hmap : (prepareCreateDocs env documents internals).map
        (fun d => hookReduce (h :: hs) d) =
        (prepareCreateDocs env documents internals).map
        (fun _ => (Except.error HookErr.emptyObject : Except HookErr Doc)) :=
      List.map_congr_left (fun d _ => habort d)
    rw [hmap]
    cases hpd : prepareCreateDocs env documents internals with
    | nil => exact absurd hpd hdocsne
    | cons p ps =>
      have hlastmap : ((p :: ps).map
          (fun _ => (Except.error HookErr.emptyObject : Except HookErr Doc))).getLast? =
          some (Except.error HookErr.emptyObject) := by
        rw [List.getLast?_map]
        rw [List.getLast?_eq_getLast (p :: ps) (by simp)]
        rfl
      rw [hlastmap]
  have hhookerr : createActingHookErr env
      (prepareCreateDocs env documents internals) =
      some HookErr.emptyObject := by
    unfold createActingHookErr
    rw [hlast, if_pos rfl, hhooks]
    exact hch
  refine ⟨habort, ?_, ?_⟩
  · simp [createRun, hdbne, hv, hvsne, createResolveOutcome, hcfcnone,
      hhookerr]
  · simp [createRun, hdbne, hv, hvsne, createInsertTrace, hhookerr]

/-- Witness for the amended C5 theorem at a concrete valid document and
the null-returning pipeline of `envHookNull`. -/
theorem hook_null_aborts_witness :
    (∀ d, hookReduce (nullHook :: [idHook]) d =
      Except.error HookErr.emptyObject) ∧
      (createRun envHookNull [[("name", DVal.vStr "1984")]] none).1 =
        CreateOutcome.failed (CreateErr.hookFailure HookErr.emptyObject) ∧
      (createRun envHookNull [[("name", DVal.vStr "1984")]] none).2 = [] :=
  hook_null_aborts envHookNull [[("name", DVal.vStr "1984")]] none
    nullHook [idHook]
    rfl ⟨⟨true, []⟩, by decide, rfl⟩ (fun d => rfl) (by decide) rfl
    (fun d => rfl)

/-! Embedding of the reference-field query rewriter of
`src/dadi/lib/fields/reference.js` (`beforeQuery`, lines 218-320) with
its model-chain resolution (`createModelChain`, lines 13-51). -/

/-- A result document's `_id`, as the rewriters read it
(`id.toString()`; documents are assumed to carry string ids, the
default otherwise). -/
def idString (d : Doc) : String :=
  match jsGet d "_id" with
  | some (DVal.vStr s) => s
  | _ => ""

/-- The tree `beforeQuery` builds from dot-notation keys (lines 252-256):
a leaf holds a plain value or an operator query (an object whose keys all
start with `$`, on which recursion stops); an inner node holds named
children. -/
inductive RQTree where
  | leaf (c : QCond)
  | node (children : List (String × RQTree))
deriving Repr

/-- Character-level split, the model of JavaScript's `split(sep)`. -/
def splitCharsOn (sep : Char) : List Char → List (List Char)
  | [] => [[]]
  | c :: rest =>
    let r := splitCharsOn sep rest
    if c = sep then [] :: r
    else
      match r with
      | [] => [[c]]
      | h :: t => (c :: h) :: t

/-- JavaScript's `string.split(sep)` for a one-character separator. -/
def jsSplit (sep : Char) (s : String) : List String :=
  (splitCharsOn sep s.data).map (fun cs => String.mk cs)

/-- The base of a key before an `@` collection override
(`key.split('@')[0]`). -/
def atBase (k : String) : String :=
  match jsSplit '@' k with
  | [] => k
  | base :: _ => base

/-- The collection override after an `@`, when present
(`field.split('@')[1]`). -/
def atOverride (k : String) : Option String :=
  match jsSplit '@' k with
  | _ :: ov :: _ => some ov
  | _ => none

/-- The world the rewriter runs in: the queried collection, each
collection's reference fields (`none` = the field is not a Reference;
`some none` = a Reference without `settings.collection`, a
self-reference; `some (some c)` = a Reference into collection `c`), and
the datastore's per-collection `find`. -/
structure RefWorld where
  rootCollection : String
  refField : String → String → Option (Option String)
  storage : String → List (String × QCond) → List Doc

/-- One step of `createModelChain`'s reduce
(src/dadi/lib/fields/reference.js:14-50): the last chain entry's schema
is consulted for the previous field; a non-Reference node poisons the
chain (`null`), a Reference without a target collection appends the node
itself (self-reference), otherwise the target collection is appended. -/
def chainStep (w : RefWorld) (cs : List String) (prevField : String)
    (field : String) : Option (List String) :=
  match cs.getLast? with
  | none => none
  | some nm =>
    match w.refField nm (atBase prevField) with
    | none => none
    | some settingsCollection =>
      match (match atOverride field with
             | some c => some c
             | none => settingsCollection) with
      | none => some (cs ++ [nm])
      | some c => some (cs ++ [c])

/-- `createModelChain` (src/dadi/lib/fields/reference.js:13-51) over the
field path of a query node, as a chain of collection names; `none`
models the propagated error state. -/
def createModelChain (w : RefWorld) (fields : List String) :
    Option (List String) :=
  match fields with
  | [] => some []
  | f0 :: rest =>
    let go : List String → String → List String → Option (List String) :=
      fun cs prev remaining =>
        remaining.foldl
          (fun acc field =>
            match acc with
            | none => none
            | some (chain, prevF) =>
              match chainStep w chain prevF field with
              | none => none
              | some chain2 => some (chain2, field))
          (some (cs, prev)) |>.map Prod.fst
    go [w.rootCollection] f0 rest

/-- The collection `processTree` issues its `find` against: the last
entry of the model chain for the node's path (the source reads
`modelChain[modelChain.length - 1]` and would throw on a `null` chain;
the embedding totalises that case with the root collection, which no
theorem below exercises). -/
def chainLastCollection (w : RefWorld) (fields : List String) : String :=
  match createModelChain w fields with
  | some cs =>
    match cs.getLast? with
    | some c => c
    | none => w.rootCollection
  | none => w.rootCollection

mutual
/-- The query-building fold of `processTree`
(src/dadi/lib/fields/reference.js:261-287): each child contributes its
condition under its canonical key — recursively resolved for inner
nodes — in key order; the second component collects the storage calls
issued, in order. -/
def buildQuery (w : RefWorld) :
    List (String × RQTree) → List String →
      List (String × QCond) × List (String × List (String × QCond))
  | [], _ => ([], [])
  | (k, RQTree.leaf c) :: rest, path =>
    let built := buildQuery w rest path
    ((atBase k, c) :: built.1, built.2)
  | (k, RQTree.node cs) :: rest, path =>
    let resolved := resolveNode w cs (path ++ [k])
    let built := buildQuery w rest path
    ((atBase k, resolved.1) :: built.1, resolved.2 ++ built.2)

/-- The per-node tail of `processTree`
(src/dadi/lib/fields/reference.js:289-316): build the node's query, then
run `find` on the chain's last model and turn the result ids into a
`$containsAny` condition.  The "little optimisation" at lines 300-307,
which is meant to skip the `find` when the query already holds an empty
`$containsAny`, executes `return {$containsAny: []}` inside a `forEach`
callback; that value is discarded and control always reaches the
`model.find` call, so the embedding issues the find unconditionally. -/
def resolveNode (w : RefWorld) (cs : List (String × RQTree))
    (path : List String) :
    QCond × List (String × List (String × QCond)) :=
  let built := buildQuery w cs path
  let firstKey := match cs with
    | [] => ""
    | (k, _) :: _ => k
  let coll := chainLastCollection w (path ++ [firstKey])
  let results := w.storage coll built.1
  (QCond.containsAny (results.map idString), built.2 ++ [(coll, built.1)])
end

/-- `beforeQuery`'s `processTree` applied to the whole input tree
(src/dadi/lib/fields/reference.js:319): the path is empty, so the
top-level result is the built query itself, with the trace of storage
calls its resolution issued. -/
def processTree (w : RefWorld) (children : List (String × RQTree)) :
    List (String × QCond) × List (String × List (String × QCond)) :=
  buildQuery w children []

/-- A three-collection world for the rewriter: `stores` holds a
reference field `book` into `books`, whose `author` field references
`authors`; the datastore finds nothing anywhere (in particular, the
`authors` lookup returns an empty result set). -/
def refWorldEx : RefWorld where
  rootCollection := "stores"
  refField := fun c f =>
    if c == "stores" && f == "book" then some (some "books")
    else if c == "books" && f == "author" then some (some "authors")
    else none
  storage := fun _ _ => []

/-- The tree of the two-level query `{"book.author.name": "Tolstoy"}`. -/
def treeEx : List (String × RQTree) :=
  [("book", RQTree.node [("author", RQTree.node [("name",
    RQTree.leaf (QCond.eqVal (DVal.vStr "Tolstoy")))])])]

/-- C8.  Evaluating the rewriter at a query whose intermediate
foreign-collection lookup comes back empty: the `authors` find returns no
documents, yet a second storage call against `books` is still issued with
the empty `$containsAny` condition, because the short-circuit at
src/dadi/lib/fields/reference.js:300-307 returns its replacement value
from inside a `forEach` callback, where it is discarded.  The final
condition does match nothing, but the promised "no further storage
calls" does not hold. -/
theorem reference_rewrite_empty_result_still_queries :
    processTree refWorldEx treeEx =
      ([("book", QCond.containsAny [])],
        [("authors", [("name", QCond.eqVal (DVal.vStr "Tolstoy"))]),
          ("books", [("author", QCond.containsAny [])])]) := by
  simp [processTree, buildQuery.eq_def, resolveNode.eq_def, refWorldEx,
    treeEx, chainLastCollection, createModelChain, chainStep, atBase,
    atOverride, jsSplit, splitCharsOn, idString]

/-! Embedding of the reference-field query handling of
`Model.prototype.find` (src/dadi/lib/model/index.js:526-706). -/

/-- The per-reference-field settings the rewrite consults:
`settings.collection`, `settings.multiple`, `settings.fields`. -/
structure RefSettings where
  collection : String
  multiple : Bool
  fields : List String
deriving Repr, DecidableEq

/-- A field's schema entry: its type string and optional settings
(modelled from the spec for `queryUtils.getSchemaOrParent`, whose module
is not part of the provided source: the schema entry of the key's first
segment). -/
structure FieldSchema where
  ftype : String
  settings : Option RefSettings
deriving Repr, DecidableEq

/-- Reading a query object's key, as `jsGet` for conditions. -/
def qGet (q : Query) (k : String) : Option QCond :=
  (q.find? (fun kv => kv.1 == k)).map (fun kv => kv.2)

/-- Assignment into a query object, as `objSet` for conditions. -/
def qSet (q : Query) (k : String) (v : QCond) : Query :=
  if (q.find? (fun kv => kv.1 == k)).isSome then
    q.map (fun kv => if kv.1 == k then (k, v) else kv)
  else q ++ [(k, v)]

/-- Modelled from the spec: whether a query key is a dot-notation path
through a reference field — a dotted key whose first segment's schema
entry has type `Reference` (`queryUtils.containsNestedReferenceFields` /
`processReferenceFieldQuery` are in `src/dadi/lib/model/utils.js`, which
is not part of the provided source; spec section 4.4 describes the split
into reference paths and plain fields). -/
def isRefDotKey (schema : String → Option FieldSchema) (k : String) : Bool :=
  match jsSplit '.' k with
  | k0 :: _ :: _ =>
    match schema k0 with
    | some fs => fs.ftype == "Reference"
    | none => false
  | _ => false

/-- Modelled from the spec: `queryUtils.processReferenceFieldQuery`
returns the query with reference parts removed (component 0) and the
reference parts themselves (component 1)
(src/dadi/lib/model/index.js:531-536). -/
def splitRefQuery (schema : String → Option FieldSchema) (q : Query) :
    Query × Query :=
  (q.filter (fun kc => ¬isRefDotKey schema kc.1),
    q.filter (fun kc => isRefDotKey schema kc.1))

/-- Whether the query needs the rewrite queue
(src/dadi/lib/model/index.js:526). -/
def containsNestedReferenceFields (schema : String → Option FieldSchema)
    (q : Query) : Bool :=
  q.any (fun kc => isRefDotKey schema kc.1)

/-- The collaborators of the rewrite queue: the queried collection's
name and schema, the datastore find each reference model delegates to,
and the `new RegExp(queryValue).test(...)` check of the link-key branch
(a JavaScript builtin, entering as a parameter). -/
structure FindEnv where
  name : String
  schema : String → Option FieldSchema
  storage : String → Query → List Doc
  regexTest : QCond → Option DVal → Bool

/-- JavaScript truthiness of a query condition, for the
`if (query[collectionKey])` check of src/dadi/lib/model/index.js:580: a
condition object is always truthy; a plain value is truthy unless it is
the empty string, `null`, `0` or `false`. -/
def qcTruthy : QCond → Bool
  | QCond.eqVal v => truthy v
  | _ => true

/-- One queue item of the reference rewrite
(src/dadi/lib/model/index.js:542-646): split the key, read the field's
settings, build the foreign-collection query (for two-part keys, the
leaf condition; for longer keys only the optional `_id` supplement from
an earlier rewrite), run the foreign `find`, and replace the dot key
with a local condition on the reference field — `$containsAny` over the
ids for multi-valued references and a plain id equality for
single-valued ones; an empty result yields the empty `$in` list or the
empty string.  For keys of three or more parts the link-key filtering of
lines 605-635 is embedded over the flat value model: a result's link
field matches a parent when it holds the parent's id string (the
object-valued branches of lines 618-624 concern populated reference
objects, which the flat document model does not carry). -/
def refQueueStep (env : FindEnv) (query0 : Query) (key : String)
    (queryValue : QCond) : Query × List (String × Query × List String) :=
  match jsSplit '.' key with
  | collectionKey :: keyParts1 =>
    let settingsOpt := match env.schema collectionKey with
      | some fs => fs.settings
      | none => none
    let collection := match settingsOpt with
      | some s => s.collection
      | none => ""
    let multiple := match settingsOpt with
      | some s => s.multiple
      | none => false
    let fieldsObj := match settingsOpt with
      | some s => s.fields
      | none => []
    match keyParts1 with
    | [queryKey] =>
      let collectionQuery := match qGet query0 collectionKey with
        | some prev =>
          if qcTruthy prev then [(queryKey, queryValue), ("_id", prev)]
          else [(queryKey, queryValue)]
        | none => [(queryKey, queryValue)]
      let results := env.storage collection collectionQuery
      let newCond :=
        if results.isEmpty then
          if multiple then QCond.inList [] else QCond.eqVal (DVal.vStr "")
        else
          if multiple then QCond.containsAny (results.map idString)
          else QCond.eqVal (DVal.vStr ((results.map idString).headD ""))
      (qSet query0 collectionKey newCond,
        [(collection, collectionQuery, fieldsObj)])
    | linkKey :: queryKey :: _ =>
      let collectionQuery : Query := match qGet query0 collectionKey with
        | some prev => if qcTruthy prev then [("_id", prev)] else []
        | none => []
      let results := env.storage collection collectionQuery
      if results.isEmpty then
        (qSet query0 collectionKey
          (if multiple then QCond.inList [] else QCond.eqVal (DVal.vStr "")),
          [(collection, collectionQuery, fieldsObj)])
      else
        let parents := results.filter
          (fun r => env.regexTest queryValue (jsGet r queryKey))
        let ids := parents.foldl (fun acc p =>
          acc ++ (results.filter (fun r =>
            match jsGet r linkKey with
            | some (DVal.vStr s) => s == idString p
            | _ => false)).map idString) []
        (qSet query0 collectionKey (QCond.inList ids),
          [(collection, collectionQuery, fieldsObj)])
    | [] => (query0, [])
  | [] => (query0, [])

/-- The sequential rewrite queue over the reference keys
(`async.series`, src/dadi/lib/model/index.js:650-658), threading the
main query through each step and collecting the foreign finds in
order. -/
def refQueue (env : FindEnv) : List (String × QCond) → Query →
    Query × List (String × Query × List String)
  | [], query => (query, [])
  | (key, qv) :: rest, query =>
    let step := refQueueStep env query key qv
    let tail := refQueue env rest step.1
    (tail.1, step.2 ++ tail.2)

/-- The reference-rewriting core of `Model.prototype.find`
(src/dadi/lib/model/index.js:525-706), for an already-validated query:
when the query holds dot-notation reference paths they are split off,
resolved through the queue, and only then is the main collection's
`find` executed with the rewritten query.  The first component is the
storage result, the second the ordered trace of storage finds
(collection, query, requested fields). -/
def findWithRefs (env : FindEnv) (q : Query) :
    List Doc × List (String × Query × List String) :=
  if containsNestedReferenceFields env.schema q then
    let rewritten := refQueue env (splitRefQuery env.schema q).2
      (splitRefQuery env.schema q).1
    (env.storage env.name rewritten.1,
      rewritten.2 ++ [(env.name, rewritten.1, [])])
  else
    (env.storage env.name q, [(env.name, q, [])])

/-- C7: when a find query carries a dot-notation path through a
reference field (a two-part key splitting into the reference field and
a leaf field, the field's schema entry naming a foreign collection) and
the foreign lookup with the leaf condition returns documents, the
engine first executes a find on the foreign collection with the leaf
condition and then the main find with the dot key replaced by a local
condition on the reference field: a `$containsAny` over the returned
ids for multi-valued references, a single id equality for single-valued
ones (src/dadi/lib/model/index.js:526-658, 592-604). -/
theorem find_rewrites_reference_dot_query
    (env : FindEnv) (q q0 : Query) (key ck qk : String) (cond : QCond)
    (C : String) (b : Bool) (flds : List String)
    (hsplit2 : (splitRefQuery env.schema q).2 = [(key, cond)])
    (hsplit1 : (splitRefQuery env.schema q).1 = q0)
    (hkey : jsSplit '.' key = [ck, qk])
    (hschema : env.schema ck = some ⟨"Reference", some ⟨C, b, flds⟩⟩)
    (hq0 : qGet q0 ck = none)
    (hres : env.storage C [(qk, cond)] ≠ []) :
    findWithRefs env q =
      (env.storage env.name
        (qSet q0 ck (if b then
          QCond.containsAny ((env.storage C [(qk, cond)]).map idString)
        else
          QCond.eqVal (DVal.vStr
            (((env.storage C [(qk, cond)]).map idString).headD "")))),
       [(C, [(qk, cond)], flds),
        (env.name,
          qSet q0 ck (if b then
            QCond.containsAny ((env.storage C [(qk, cond)]).map idString)
          else
            QCond.eqVal (DVal.vStr
              (((env.storage C [(qk, cond)]).map idString).headD ""))),
          [])]) := by
  have hfil : q.filter (fun kc => isRefDotKey env.schema kc.1)
      = [(key, cond)] := hsplit2
  have hmem : (key, cond) ∈ q.filter (fun kc => isRefDotKey env.schema kc.1) := by
    rw [hfil]
    exact List.mem_singleton.mpr rfl
  have hpair := List.mem_filter.mp hmem
  have hcnrf : containsNestedReferenceFields env.schema q = true := by
    unfold containsNestedReferenceFields
    exact List.any_eq_true.mpr ⟨(key, cond), hpair.1, hpair.2⟩
  have hne : (env.storage C [(qk, cond)]).isEmpty = false := by
    cases h : env.storage C [(qk, cond)] with
    | nil => exact absurd h hres
    | cons a l => simp
  unfold findWithRefs
  rw [hcnrf, hsplit2, hsplit1]
  simp only [if_true]
  simp only [refQueue, refQueueStep, hkey, hq0, hschema, hne]
  simp

/-- A concrete find environment: a `books` collection whose `authorId`
field is a multi-valued reference into `authors`, and a datastore that
answers the leaf query `{name: "Tolstoy"}` on `authors` with one
document. -/
def findEnvW : FindEnv where
  name := "books"
  schema := fun f =>
    if f == "authorId" then
      some ⟨"Reference", some ⟨"authors", true, ["name"]⟩⟩
    else none
  storage := fun c q =>
    if c == "authors" && q == [("name", QCond.eqVal (DVal.vStr "Tolstoy"))] then
      [[("_id", DVal.vStr "author1"), ("name", DVal.vStr "Tolstoy")]]
    else []
  regexTest := fun _ _ => false

/-- Witness for C7 at `findEnvW`: `find({"authorId.name": "Tolstoy"})`
resolves the author id first and then runs the main find with
`{authorId: {$containsAny: ["author1"]}}`. -/
theorem find_rewrites_reference_dot_query_witness :
    findWithRefs findEnvW
        [("authorId.name", QCond.eqVal (DVal.vStr "Tolstoy"))] =
      ([], [("authors", [("name", QCond.eqVal (DVal.vStr "Tolstoy"))], ["name"]),
            ("books", [("authorId", QCond.containsAny ["author1"])], [])]) := by
  have h := find_rewrites_reference_dot_query findEnvW
    [("authorId.name", QCond.eqVal (DVal.vStr "Tolstoy"))] []
    "authorId.name" "authorId" "name" (QCond.eqVal (DVal.vStr "Tolstoy"))
    "authors" true ["name"]
    (by decide) (by decide) (by decide) (by decide) (by decide) (by decide)
  exact h.trans (by decide)
